import Mathlib

/-!
Verification of the CoTaskLib cooperative task scheduler core
(`include/CoTaskLib/Core.hpp`).

The C++ source is shallowly embedded: each stateful class becomes a Lean
structure, each member function a pure function threading the state
explicitly.  Machine integers (`uint64`, `int32`) are modelled as `Nat` /
`Int` (no overflow is relevant to any claim).  C++ exceptions become
`Except` / explicit `Option Nat` exception slots; a raised exception is
identified by the numeric label of the callback (or stored fault) that
raised it.

An `IAwaiter`, as observed by the `Backend` registry, exposes only
`resume()` and `done()`; since a coroutine that is done stays done, its
observable behaviour at that interface is fully described by a countdown
(number of `resume` calls until `done()` becomes true).  To model
re-entrant calls of `Backend::Remove` from inside a task body, an awaiter
may carry the id it removes when resumed (`removeOnResume`).

`std::function` callbacks are opaque: a callback is a numeric label plus a
flag saying whether invoking it throws.  Invocations are recorded in an
event log, which is how "the finish/cancel callback fired" is stated.
-/

namespace CoTaskLib

/-- An opaque `std::function` end callback: `cbId` identifies it in the
event log, `throws` says whether invoking it raises an exception. -/
structure Callback where
  cbId : Nat
  throws : Bool
deriving DecidableEq, Repr

/-- Observable callback invocations. -/
inductive Event where
  | finish (cbId : Nat)
  | cancel (cbId : Nat)
deriving DecidableEq, Repr

/-- Invoke an optional callback (a null `std::function` is skipped),
returning the logged events and the exception it raised, if any. -/
def invokeCallback (cb : Option Callback) (f : Nat → Event) : List Event × Option Nat :=
  match cb with
  | none => ([], none)
  | some c => ([f c.cbId], if c.throws then some c.cbId else none)

/-- First-captured-exception combiner: `Backend::update` keeps only the
first exception raised during a sweep. -/
def firstSome (x y : Option Nat) : Option Nat :=
  match x with
  | some a => some a
  | none => y

/-- The behaviour of an `IAwaiter` at the registry interface: `countdown`
resumes remain until `done()`; `removeOnResume` models a task body that
calls `Backend::Remove id` during its own `resume()`. -/
structure Awaiter where
  countdown : Nat
  removeOnResume : Option Nat := none
deriving DecidableEq, Repr

/-- `IAwaiter::done`. -/
def Awaiter.done (a : Awaiter) : Bool := a.countdown = 0

/-- An entry of `Backend::m_awaiterEntries`. -/
structure AwaiterEntry where
  awaiter : Awaiter
  finishCallback : Option Callback
  cancelCallback : Option Callback
deriving DecidableEq, Repr

/-- `AwaiterEntry::callEndCallback`: finish when the awaiter is done,
cancel otherwise. -/
def AwaiterEntry.callEndCallback (e : AwaiterEntry) : List Event × Option Nat :=
  if e.awaiter.done then invokeCallback e.finishCallback Event.finish
  else invokeCallback e.cancelCallback Event.cancel

/-- Association-list lookup for the entry map (`std::map::find`). -/
def lookupEntry : List (Nat × AwaiterEntry) → Nat → Option AwaiterEntry
  | [], _ => none
  | (i, e) :: rest, id => if i = id then some e else lookupEntry rest id

/-- Erase an entry by id (`std::map::erase`). -/
def eraseEntry : List (Nat × AwaiterEntry) → Nat → List (Nat × AwaiterEntry)
  | [], _ => []
  | (i, e) :: rest, id => if i = id then rest else (i, e) :: eraseEntry rest id

/-- Replace the entry stored under `id` (in-place mutation of
`it->second.awaiter` through the map iterator). -/
def setEntry : List (Nat × AwaiterEntry) → Nat → AwaiterEntry → List (Nat × AwaiterEntry)
  | [], _, _ => []
  | (i, e) :: rest, id, e' => if i = id then (i, e') :: rest else (i, e) :: setEntry rest id e'

/-- The mutable state of the `Backend` singleton.  The entry map is a
list ordered as the `std::map` iterates (ascending id); well-formedness
hypotheses state id uniqueness where a proof needs it. -/
structure BackendState where
  nextAwaiterID : Nat
  currentAwaiterID : Option Nat
  currentAwaiterRemovalNeeded : Bool
  awaiterEntries : List (Nat × AwaiterEntry)
deriving DecidableEq, Repr

/-- `Backend::Remove` (instance present): removing the currently-resuming
entry only sets the one-slot removal flag; otherwise the entry's end
callback runs and, when it does not throw, the entry is erased (a throw
propagates before the erase). -/
def Backend.Remove (st : BackendState) (id : Nat) : BackendState × List Event × Option Nat :=
  if st.currentAwaiterID = some id then
    ({ st with currentAwaiterRemovalNeeded := true }, [], none)
  else
    match lookupEntry st.awaiterEntries id with
    | none => (st, [], none)
    | some e =>
      let r := e.callEndCallback
      match r.2 with
      | some x => (st, r.1, some x)
      | none => ({ st with awaiterEntries := eraseEntry st.awaiterEntries id }, r.1, none)

/-- One `IAwaiter::resume` as driven by the backend: a done awaiter is
left untouched (`CoroutineHandleWrapper::resume` returns early);
otherwise the body's re-entrant `Backend::Remove`, if any, is applied and
the countdown decreases by one. -/
def Awaiter.resumeIn (a : Awaiter) (st : BackendState) :
    Awaiter × BackendState × List Event × Option Nat :=
  if a.done then (a, st, [], none)
  else
    let r :=
      match a.removeOnResume with
      | none => (st, ([] : List Event), (none : Option Nat))
      | some j => Backend.Remove st j
    ({ a with countdown := a.countdown - 1 }, r.1, r.2.1, r.2.2)

/-- `Backend::Add` (instance present, non-null awaiter): issues the next
id and registers the entry.  New ids exceed all previously issued ones,
so appending keeps the map's iteration order. -/
def Backend.Add (st : BackendState) (awaiter : Awaiter)
    (finishCallback cancelCallback : Option Callback) : Nat × BackendState :=
  (st.nextAwaiterID,
    { st with
        nextAwaiterID := st.nextAwaiterID + 1,
        awaiterEntries :=
          st.awaiterEntries ++ [(st.nextAwaiterID, ⟨awaiter, finishCallback, cancelCallback⟩)] })

/-- `Backend::IsDone` (instance present): a live entry reports its
awaiter's state; an absent id counts as done exactly when it was already
issued. -/
def Backend.IsDone (st : BackendState) (id : Nat) : Bool :=
  match lookupEntry st.awaiterEntries id with
  | some e => e.awaiter.done
  | none => decide (id < st.nextAwaiterID)

/-- The loop body of `Backend::update`, walking the snapshot of ids the
`std::map` iteration visits (ids erased mid-sweep by a re-entrant
`Remove` are skipped; nothing is inserted during a sweep).  `firstExn`
holds the first exception captured from an end callback; an exception
escaping an awaiter's `resume()` itself aborts the sweep uncaught. -/
def Backend.updateGo :
    List Nat → BackendState → List Event → Option Nat →
      BackendState × List Event × Option Nat
  | [], st, evs, firstExn => ({ st with currentAwaiterID := none }, evs, firstExn)
  | id :: rest, st, evs, firstExn =>
    match lookupEntry st.awaiterEntries id with
    | none => Backend.updateGo rest st evs firstExn
    | some e =>
      let st1 := { st with currentAwaiterID := some id }
      let r := e.awaiter.resumeIn st1
      match r.2.2.2 with
      | some x => (r.2.1, evs ++ r.2.2.1, some x)
      | none =>
        let e' := { e with awaiter := r.1 }
        let st3 := { r.2.1 with awaiterEntries := setEntry r.2.1.awaiterEntries id e' }
        if st3.currentAwaiterRemovalNeeded || e'.awaiter.done then
          let c := e'.callEndCallback
          let st4 :=
            { st3 with
                awaiterEntries := eraseEntry st3.awaiterEntries id,
                currentAwaiterRemovalNeeded := false }
          Backend.updateGo rest st4 (evs ++ r.2.2.1 ++ c.1) (firstSome firstExn c.2)
        else
          Backend.updateGo rest st3 (evs ++ r.2.2.1) firstExn

/-- `Backend::update`: one tick sweep over the live entries. -/
def Backend.update (st : BackendState) : BackendState × List Event × Option Nat :=
  Backend.updateGo (st.awaiterEntries.map Prod.fst) st [] none

/-- `Backend::Remove` through the static entry point: a missing singleton
(`s_pInstance == nullptr`) returns silently. -/
def Backend.RemoveS (inst : Option BackendState) (id : Nat) :
    Option BackendState × List Event × Option Nat :=
  match inst with
  | none => (none, [], none)
  | some st =>
    let r := Backend.Remove st id
    (some r.1, r.2.1, r.2.2)

/-- `Backend::IsDone` through the static entry point: a missing singleton
throws. -/
def Backend.IsDoneS (inst : Option BackendState) (id : Nat) : Except String Bool :=
  match inst with
  | none => Except.error "Backend is not initialized"
  | some st => Except.ok (Backend.IsDone st id)

/-- `detail::ResumeAwaiterOnceAndRegisterIfNotDone`: finish immediately
when already done; otherwise resume once synchronously and either finish
immediately (no registration) or register with `Backend::Add`.  Returns
the optional id, the final state, the logged events and the exception
that escaped the spawn, if any. -/
def ResumeAwaiterOnceAndRegisterIfNotDone (aw : Awaiter)
    (finishCallback cancelCallback : Option Callback) (st : BackendState) :
    Option Nat × BackendState × List Event × Option Nat :=
  if aw.done then
    let c := invokeCallback finishCallback Event.finish
    (none, st, c.1, c.2)
  else
    let r := aw.resumeIn st
    match r.2.2.2 with
    | some x => (none, r.2.1, r.2.2.1, some x)
    | none =>
      if r.1.done then
        let c := invokeCallback finishCallback Event.finish
        (none, r.2.1, r.2.2.1 ++ c.1, c.2)
      else
        let a := Backend.Add r.2.1 r.1 finishCallback cancelCallback
        (some a.1, a.2, r.2.2.1, none)

/-- `ScopedTaskRunner`: holds the optional registry id. -/
structure ScopedTaskRunner where
  m_id : Option Nat
deriving DecidableEq, Repr

/-- `ScopedTaskRunner` construction / `Task::runScoped`. -/
def ScopedTaskRunner.runScoped (aw : Awaiter)
    (finishCallback cancelCallback : Option Callback) (st : BackendState) :
    ScopedTaskRunner × BackendState × List Event × Option Nat :=
  let r := ResumeAwaiterOnceAndRegisterIfNotDone aw finishCallback cancelCallback st
  (⟨r.1⟩, r.2.1, r.2.2.1, r.2.2.2)

/-- `ScopedTaskRunner::done` (with a live backend instance). -/
def ScopedTaskRunner.done (r : ScopedTaskRunner) (st : BackendState) : Bool :=
  match r.m_id with
  | none => true
  | some id => Backend.IsDone st id

/-- `ScopedTaskRunner::~ScopedTaskRunner`: requests removal through the
static `Backend::Remove` when an id is held. -/
def ScopedTaskRunner.destruct (r : ScopedTaskRunner) (inst : Option BackendState) :
    Option BackendState × List Event × Option Nat :=
  match r.m_id with
  | none => (inst, [], none)
  | some id => Backend.RemoveS inst id

/-- The countdown after one non-done resume. -/
def Awaiter.resumedOnce (a : Awaiter) : Awaiter := { a with countdown := a.countdown - 1 }

/-- Whether one tick's sweep cleans this entry up: it either requested its
own removal from inside `resume()` or reached its terminal state during
that resume. -/
def cleanedThisTick (p : Nat × AwaiterEntry) : Bool :=
  decide (p.2.awaiter.removeOnResume = some p.1) || p.2.awaiter.resumedOnce.done

/-- An entry after its one resume of the tick. -/
def tickedEntry (p : Nat × AwaiterEntry) : Nat × AwaiterEntry :=
  (p.1, { p.2 with awaiter := p.2.awaiter.resumedOnce })

/-- Per-entry independent specification of one tick sweep (for live
entries whose only re-entrant effect is self-removal): every entry is
resumed once; an entry that finished or self-removed has its end
callback invoked and is dropped, independently of every other entry, and
the first exception captured from an end callback survives. -/
def sweepSpec :
    List (Nat × AwaiterEntry) → List (Nat × AwaiterEntry) × List Event × Option Nat
  | [] => ([], [], none)
  | p :: rest =>
    let p' := tickedEntry p
    let r := sweepSpec rest
    if cleanedThisTick p then
      let c := p'.2.callEndCallback
      (r.1, c.1 ++ r.2.1, firstSome c.2 r.2.2)
    else (p' :: r.1, r.2.1, r.2.2)

/-! ## Coroutine handle and promise (delegated resumption) -/

/-- The promise-side state of one coroutine as far as `resume()` is
concerned: the pending sub-awaiter (`PromiseBase::m_pSubAwaiter`,
abstracted at its `IAwaiter` interface to the number of resumes left
until it is done), an abstract program counter for the body's suspend
points, and whether the coroutine handle is done. -/
structure PromiseState where
  subAwaiter : Option Nat
  bodyPos : Nat
  isDone : Bool
deriving DecidableEq, Repr

/-- `PromiseBase::resumeSubAwaiter`: no sub-awaiter means false; else the
sub-awaiter is resumed once, and if it is now done the slot is cleared
and false is returned (letting the body advance this very call), else
true. -/
def PromiseState.resumeSubAwaiter (p : PromiseState) : PromiseState × Bool :=
  match p.subAwaiter with
  | none => (p, false)
  | some n =>
    if n - 1 = 0 then ({ p with subAwaiter := none }, false)
    else ({ p with subAwaiter := some (n - 1) }, true)

/-- One advance of the coroutine body (`m_handle.resume()`): the abstract
body maps the current suspend point to either `some sub` — suspend
again, with `sub` the optional pending sub-awaiter registered through
`await_suspend`/`setSubAwaiter` — or `none`, meaning the body runs to
completion. -/
def advanceBody (body : Nat → Option (Option Nat)) (p : PromiseState) : PromiseState :=
  match body p.bodyPos with
  | some sub => { p with bodyPos := p.bodyPos + 1, subAwaiter := sub }
  | none => { p with bodyPos := p.bodyPos + 1, subAwaiter := none, isDone := true }

/-- `CoroutineHandleWrapper::resume`: done handles are left alone; else
the pending sub-awaiter is resumed first and, only if none remains
unfinished, the outer body advances one step. -/
def handleResume (body : Nat → Option (Option Nat)) (p : PromiseState) : PromiseState :=
  if p.isDone then p
  else
    let r := p.resumeSubAwaiter
    if r.2 then r.1 else advanceBody body r.1

/-! ## One-shot result bridge (`TaskFinishSource`) -/

/-- `TaskFinishSource<TResult>`: at most one pending result
(`m_result`, a `unique_ptr`) plus the consumed flag. -/
structure TaskFinishSource (α : Type) where
  m_result : Option α
  m_resultConsumed : Bool
deriving DecidableEq, Repr

/-- `TaskFinishSource::hasResult`. -/
def TaskFinishSource.hasResult {α : Type} (s : TaskFinishSource α) : Bool :=
  s.m_result.isSome

/-- `TaskFinishSource::requestFinish`: stores the result iff none was
ever stored and none was consumed, returning whether it succeeded. -/
def TaskFinishSource.requestFinish {α : Type} (s : TaskFinishSource α) (x : α) :
    Bool × TaskFinishSource α :=
  if s.m_resultConsumed || s.hasResult then (false, s)
  else (true, { s with m_result := some x })

/-- `TaskFinishSource::result`: checks the consumed flag first, then the
missing-result case — both throw before any mutation — otherwise marks
consumed, moves the value out and clears the slot. -/
def TaskFinishSource.result {α : Type} (s : TaskFinishSource α) :
    Except String (α × TaskFinishSource α) :=
  if s.m_resultConsumed then
    Except.error "TaskFinishSource: result can be get only once."
  else
    match s.m_result with
    | none => Except.error "TaskFinishSource: TaskFinishSource does not have a result."
    | some v => Except.ok (v, ⟨none, true⟩)

/-- A default-constructed source. -/
def TaskFinishSource.fresh {α : Type} : TaskFinishSource α := ⟨none, false⟩

/-- A call against one source: `requestFinish(x)` or `result()`. -/
inductive FinishOp (α : Type) where
  | requestFinish (x : α)
  | getResult
deriving DecidableEq, Repr

/-- Run a call sequence; a throwing `result()` leaves the state
untouched.  Returns the final state and the `requestFinish` return
values in call order. -/
def runFinishOps {α : Type} : TaskFinishSource α → List (FinishOp α) →
    TaskFinishSource α × List Bool
  | s, [] => (s, [])
  | s, FinishOp.requestFinish x :: ops =>
    let r := s.requestFinish x
    let t := runFinishOps r.2 ops
    (t.1, r.1 :: t.2)
  | s, FinishOp.getResult :: ops =>
    match s.result with
    | Except.ok r => runFinishOps r.2 ops
    | Except.error _ => runFinishOps s ops

/-- Number of `requestFinish` calls in a sequence. -/
def countRequests {α : Type} : List (FinishOp α) → Nat
  | [] => 0
  | FinishOp.requestFinish _ :: ops => countRequests ops + 1
  | FinishOp.getResult :: ops => countRequests ops

/-! ## Completion slot (`detail::Promise`) -/

/-- The completion machinery of `detail::Promise<TResult>`: the
`std::promise` slot (`m_value`) holding a produced value or a captured
failure (identified by a numeric label), and the two flags. -/
structure Promise (α : Type) where
  m_value : Option (Except Nat α)
  m_isResultSet : Bool
  m_resultConsumed : Bool
deriving Repr

/-- Outcome of `Promise::value()`. -/
inductive ValueOutcome (α : Type) where
  | ok (v : α)
  | notCompleted
  | consumedTwice
  | fault (e : Nat)
deriving DecidableEq, Repr

/-- `Promise<TResult>::value` (`Promise<void>::value` is identical up to
the value): throws before completion, throws on a second read, else
latches the consumed flag and returns the stored value or rethrows the
stored failure via `get_future().get()`.  (An unset `std::promise` with
the set flag raised cannot occur — both are written together — so that
branch conservatively reports not-completed.) -/
def Promise.value {α : Type} (p : Promise α) : ValueOutcome α × Promise α :=
  if p.m_isResultSet = false then (ValueOutcome.notCompleted, p)
  else if p.m_resultConsumed then (ValueOutcome.consumedTwice, p)
  else
    match p.m_value with
    | some (Except.ok v) => (ValueOutcome.ok v, { p with m_resultConsumed := true })
    | some (Except.error e) => (ValueOutcome.fault e, { p with m_resultConsumed := true })
    | none => (ValueOutcome.notCompleted, p)

/-- `Promise::return_value` / `return_void`: `std::promise::set_value` on
an already-satisfied promise throws `std::future_error` (before the set
flag would be written). -/
def Promise.return_value {α : Type} (p : Promise α) (v : α) : Except String (Promise α) :=
  match p.m_value with
  | some _ => Except.error "std::future_error: promise already satisfied"
  | none => Except.ok { p with m_value := some (Except.ok v), m_isResultSet := true }

/-- `Promise::unhandled_exception`: stores the in-flight exception via
`std::promise::set_exception`, same already-satisfied behaviour. -/
def Promise.unhandled_exception {α : Type} (p : Promise α) (e : Nat) :
    Except String (Promise α) :=
  match p.m_value with
  | some _ => Except.error "std::future_error: promise already satisfied"
  | none => Except.ok { p with m_value := some (Except.error e), m_isResultSet := true }

/-! ## Tasks as combinator arguments, and the `All`/`Any` combinators -/

/-- `VoidResult`: the empty marker substituted for `void` results inside
combinator tuples; a `Task<void>` argument is a task over this type. -/
structure VoidResult where
deriving DecidableEq, Repr

/-- A `Task<TResult>` argument of a combinator at its observable
interface: `remaining` resumes until `done()`, the number of times its
body actually advanced, and what its completion slot will hold — a
produced value or a captured failure (numeric label), read through
`value()` once done. -/
structure MTask (α : Type) where
  remaining : Nat
  advanceCount : Nat
  result : Except Nat α
deriving Repr

/-- `Task::done`. -/
def MTask.done {α : Type} (t : MTask α) : Bool := t.remaining = 0

/-- `Task::resume`: early-returns once the handle is done — a finished
argument's body is never advanced again — else advances one step. -/
def MTask.resume {α : Type} (t : MTask α) : MTask α :=
  if t.done then t
  else { t with remaining := t.remaining - 1, advanceCount := t.advanceCount + 1 }

/-- Closed form of `k` successive resumes. -/
def MTask.afterResumes {α : Type} (t : MTask α) (k : Nat) : MTask α :=
  { remaining := t.remaining - k,
    advanceCount := t.advanceCount + min k t.remaining,
    result := t.result }

/-- `detail::ConvertVoidResult`: fetches `task.value()`, which rethrows a
captured failure. -/
def ConvertVoidResult {α : Type} (t : MTask α) : Except Nat α := t.result

/-- `detail::ConvertOptionalVoidResult`: an unfinished argument yields an
absent slot — its value is never fetched, so no failure propagates from
it — a finished one yields its fetched value or rethrows its failure. -/
def ConvertOptionalVoidResult {α : Type} (t : MTask α) : Except Nat (Option α) :=
  if t.done then
    match t.result with
    | Except.ok v => Except.ok (some v)
    | Except.error e => Except.error e
  else Except.ok none

/-- The tuple `All` produces at completion
(`std::make_tuple(ConvertVoidResult(args)...)`, argument order); a fetch
that rethrows turns into All's own captured failure. -/
def allComplete {α β : Type} (a : MTask α) (b : MTask β) : Except Nat (α × β) :=
  match ConvertVoidResult a with
  | Except.error e => Except.error e
  | Except.ok va =>
    match ConvertVoidResult b with
    | Except.error e => Except.error e
    | Except.ok vb => Except.ok (va, vb)

/-- The tuple `Any` produces at completion
(`std::make_tuple(ConvertOptionalVoidResult(args)...)`). -/
def anyComplete {α β : Type} (a : MTask α) (b : MTask β) :
    Except Nat (Option α × Option β) :=
  match ConvertOptionalVoidResult a with
  | Except.error e => Except.error e
  | Except.ok sa =>
    match ConvertOptionalVoidResult b with
    | Except.error e => Except.error e
    | Except.ok sb => Except.ok (sa, sb)

/-- The coroutine state of `Co::All(a, b)` (the binary instance of the
variadic combinator): the argument tasks held by value in the frame,
whether the first resume already ran the body's entry check, and the
completion slot. -/
structure AllState (α β : Type) where
  a : MTask α
  b : MTask β
  started : Bool
  completed : Option (Except Nat (α × β))
deriving Repr

def AllState.done {α β : Type} (s : AllState α β) : Bool := s.completed.isSome

/-- One iteration of All's loop body: `(args.resume(), ...)` in argument
order, then complete if every argument is done, else await a frame. -/
def allLoopIter {α β : Type} (s : AllState α β) : AllState α β :=
  let a' := s.a.resume
  let b' := s.b.resume
  if a'.done && b'.done then
    { s with a := a', b := b', completed := some (allComplete a' b') }
  else { s with a := a', b := b' }

/-- One resume of the All coroutine: inert when completed; the first
resume runs the body from the top — completing immediately, with no
argument resumed and no frame awaited, when every argument is already
done at entry — and every resume after that runs one loop iteration. -/
def AllState.resume {α β : Type} (s : AllState α β) : AllState α β :=
  if s.done then s
  else if s.started = false then
    let s1 := { s with started := true }
    if s.a.done && s.b.done then { s1 with completed := some (allComplete s.a s.b) }
    else allLoopIter s1
  else allLoopIter s

/-- The freshly created (suspended, not yet started) All coroutine. -/
def AllInit {α β : Type} (a : MTask α) (b : MTask β) : AllState α β := ⟨a, b, false, none⟩

/-- The All coroutine after `k` resumes (tick `k` of its life). -/
def allRun {α β : Type} (a : MTask α) (b : MTask β) : Nat → AllState α β
  | 0 => AllInit a b
  | k + 1 => (allRun a b k).resume

/-- The coroutine state of `Co::Any(a, b)`. -/
structure AnyState (α β : Type) where
  a : MTask α
  b : MTask β
  started : Bool
  completed : Option (Except Nat (Option α × Option β))
deriving Repr

def AnyState.done {α β : Type} (s : AnyState α β) : Bool := s.completed.isSome

/-- One iteration of Any's loop body: resume every argument once in
argument order, then complete as soon as at least one is done. -/
def anyLoopIter {α β : Type} (s : AnyState α β) : AnyState α β :=
  let a' := s.a.resume
  let b' := s.b.resume
  if a'.done || b'.done then
    { s with a := a', b := b', completed := some (anyComplete a' b') }
  else { s with a := a', b := b' }

/-- One resume of the Any coroutine; entry check as for All but with the
any-done disjunction. -/
def AnyState.resume {α β : Type} (s : AnyState α β) : AnyState α β :=
  if s.done then s
  else if s.started = false then
    let s1 := { s with started := true }
    if s.a.done || s.b.done then { s1 with completed := some (anyComplete s.a s.b) }
    else anyLoopIter s1
  else anyLoopIter s

def AnyInit {α β : Type} (a : MTask α) (b : MTask β) : AnyState α β := ⟨a, b, false, none⟩

/-- The Any coroutine after `k` resumes. -/
def anyRun {α β : Type} (a : MTask α) (b : MTask β) : Nat → AnyState α β
  | 0 => AnyInit a b
  | k + 1 => (anyRun a b k).resume

/-! ## Ordered dispatcher (`OrderedExecutor`) -/

/-- `OrderedExecutor::CallerKey`. -/
structure CallerKey where
  id : Nat
  sortingOrder : Int
deriving DecidableEq, Repr

/-- `CallerKey::operator<` as a non-strict total order: ascending
sorting order first, ties by ascending registration id. -/
def CallerKey.le (k1 k2 : CallerKey) : Prop :=
  k1.sortingOrder < k2.sortingOrder ∨
    (k1.sortingOrder = k2.sortingOrder ∧ k1.id ≤ k2.id)

instance : DecidableRel CallerKey.le := fun k1 k2 => by
  unfold CallerKey.le
  infer_instance

/-- `OrderedExecutor::Caller` over an environment type `ε`: `funcId`
labels the callback in the dispatch log, `funcEff` is the callback's
effect on the environment, `sortingOrderFunc` its dynamic priority
function. -/
structure Caller (ε : Type) where
  funcId : Nat
  funcEff : ε → ε
  sortingOrderFunc : ε → Int

/-- Keyed-caller order (keys only). -/
def callerLE {ε : Type} (p q : CallerKey × Caller ε) : Prop := CallerKey.le p.1 q.1

instance {ε : Type} : DecidableRel (@callerLE ε) := fun p q => by
  unfold callerLE
  infer_instance

instance {ε : Type} : IsTotal (CallerKey × Caller ε) callerLE :=
  ⟨fun p q => by
    unfold callerLE CallerKey.le
    omega⟩

instance {ε : Type} : IsTrans (CallerKey × Caller ε) callerLE :=
  ⟨fun p q r hpq hqr => by
    unfold callerLE CallerKey.le at hpq hqr ⊢
    omega⟩

/-- `OrderedExecutor` state: the key-sorted caller map `m_callers`.
(The auxiliary index `m_callerKeyByID` mirrors the keys of `m_callers`
and serves only `findByID`/`remove`; `call()` never reads it, so it is
elided.) -/
structure OrderedExecutor (ε : Type) where
  m_nextID : Nat
  m_callers : List (CallerKey × Caller ε)

/-- `OrderedExecutor::add`: evaluates the priority function once and
inserts under (fresh id, current priority), returning the id. -/
def OrderedExecutor.add {ε : Type} (ex : OrderedExecutor ε) (c : Caller ε) (env : ε) :
    Nat × OrderedExecutor ε :=
  (ex.m_nextID,
    { m_nextID := ex.m_nextID + 1,
      m_callers :=
        List.orderedInsert callerLE (⟨ex.m_nextID, c.sortingOrderFunc env⟩, c)
          ex.m_callers })

/-- `OrderedExecutor::refreshSortingOrder`: re-evaluates every entry's
current priority and re-inserts each entry whose priority changed under
its new key.  Since ids are unique the keys stay pairwise distinct, so
the net effect on the sorted map is exactly: re-key every entry to its
current priority and keep the unique ascending arrangement — modelled as
sorting the re-keyed entries. -/
def OrderedExecutor.refreshSortingOrder {ε : Type} (env : ε) (ex : OrderedExecutor ε) :
    OrderedExecutor ε :=
  { ex with
      m_callers :=
        List.insertionSort callerLE
          (ex.m_callers.map fun p => (⟨p.1.id, p.2.sortingOrderFunc env⟩, p.2)) }

/-- `OrderedExecutor::call`: refresh priorities once at cycle entry, then
invoke every callback in stored-key order, threading the environment
through the callbacks' effects.  Returns the invocation log (funcIds in
invocation order), the final environment and the refreshed executor. -/
def OrderedExecutor.call {ε : Type} (env : ε) (ex : OrderedExecutor ε) :
    List Nat × ε × OrderedExecutor ε :=
  let ex' := ex.refreshSortingOrder env
  let r := ex'.m_callers.foldl
    (fun acc p => (acc.1 ++ [p.2.funcId], p.2.funcEff acc.2)) ([], env)
  (r.1, r.2, ex')

/-! ## Supporting lemmas for the registry sweep -/

theorem firstSome_none_right (x : Option Nat) : firstSome x none = x := by
  cases x <;> rfl

theorem firstSome_assoc (a b c : Option Nat) :
    firstSome (firstSome a b) c = firstSome a (firstSome b c) := by
  cases a <;> rfl

theorem Awaiter.done_eq_false (a : Awaiter) (h : 1 ≤ a.countdown) : a.done = false := by
  simp only [Awaiter.done, decide_eq_false_iff_not]
  omega

theorem lookupEntry_append_of_not_mem (pre ys : List (Nat × AwaiterEntry)) (i : Nat)
    (h : i ∉ pre.map Prod.fst) :
    lookupEntry (pre ++ ys) i = lookupEntry ys i := by
  induction pre with
  | nil => rfl
  | cons p rest ih =>
    obtain ⟨p1, p2⟩ := p
    simp only [List.map_cons, List.mem_cons, not_or] at h
    simp only [List.cons_append, lookupEntry]
    rw [if_neg fun hj => h.1 hj.symm]
    exact ih h.2

theorem setEntry_append_of_not_mem (pre ys : List (Nat × AwaiterEntry)) (i : Nat)
    (e' : AwaiterEntry) (h : i ∉ pre.map Prod.fst) :
    setEntry (pre ++ ys) i e' = pre ++ setEntry ys i e' := by
  induction pre with
  | nil => rfl
  | cons p rest ih =>
    obtain ⟨p1, p2⟩ := p
    simp only [List.map_cons, List.mem_cons, not_or] at h
    simp only [List.cons_append, setEntry]
    rw [if_neg fun hj => h.1 hj.symm]
    exact congrArg (List.cons (p1, p2)) (ih h.2)

theorem eraseEntry_append_of_not_mem (pre ys : List (Nat × AwaiterEntry)) (i : Nat)
    (h : i ∉ pre.map Prod.fst) :
    eraseEntry (pre ++ ys) i = pre ++ eraseEntry ys i := by
  induction pre with
  | nil => rfl
  | cons p rest ih =>
    obtain ⟨p1, p2⟩ := p
    simp only [List.map_cons, List.mem_cons, not_or] at h
    simp only [List.cons_append, eraseEntry]
    rw [if_neg fun hj => h.1 hj.symm]
    exact congrArg (List.cons (p1, p2)) (ih h.2)

theorem lookupEntry_cons_self (i : Nat) (e : AwaiterEntry) (rest : List (Nat × AwaiterEntry)) :
    lookupEntry ((i, e) :: rest) i = some e := by
  simp [lookupEntry]

theorem setEntry_cons_self (i : Nat) (e e' : AwaiterEntry) (rest : List (Nat × AwaiterEntry)) :
    setEntry ((i, e) :: rest) i e' = (i, e') :: rest := by
  simp [setEntry]

theorem eraseEntry_cons_self (i : Nat) (e : AwaiterEntry) (rest : List (Nat × AwaiterEntry)) :
    eraseEntry ((i, e) :: rest) i = rest := by
  simp [eraseEntry]

/-- Master characterization of one sweep: for live entries whose only
re-entrant effect is self-removal, the imperative loop of
`Backend::update` equals the per-entry independent `sweepSpec`. -/
theorem updateGo_eq_sweepSpec (es : List (Nat × AwaiterEntry)) :
    ∀ (pre : List (Nat × AwaiterEntry)) (n : Nat) (c0 : Option Nat)
      (evs : List Event) (exn : Option Nat),
      ((pre ++ es).map Prod.fst).Nodup →
      (∀ p ∈ es, p.2.awaiter.removeOnResume = none ∨ p.2.awaiter.removeOnResume = some p.1) →
      (∀ p ∈ es, 1 ≤ p.2.awaiter.countdown) →
      Backend.updateGo (es.map Prod.fst) ⟨n, c0, false, pre ++ es⟩ evs exn =
        (⟨n, none, false, pre ++ (sweepSpec es).1⟩,
          evs ++ (sweepSpec es).2.1, firstSome exn (sweepSpec es).2.2) := by
  induction es with
  | nil =>
    intro pre n c0 evs exn _ _ _
    simp [Backend.updateGo, sweepSpec, firstSome_none_right]
  | cons p rest ih =>
    intro pre n c0 evs exn hnodup hself hlive
    obtain ⟨i, e⟩ := p
    have hinotpre : i ∉ pre.map Prod.fst := by
      intro hmem
      simp only [List.map_append, List.nodup_append] at hnodup
      exact hnodup.2.2 hmem (by simp)
    have hlook : lookupEntry (pre ++ (i, e) :: rest) i = some e := by
      rw [lookupEntry_append_of_not_mem _ _ _ hinotpre, lookupEntry_cons_self]
    have hdone : e.awaiter.done = false :=
      Awaiter.done_eq_false _ (hlive (i, e) (List.mem_cons_self _ _))
    have hset : setEntry (pre ++ (i, e) :: rest) i { e with awaiter := e.awaiter.resumedOnce } =
        pre ++ (i, { e with awaiter := e.awaiter.resumedOnce }) :: rest := by
      rw [setEntry_append_of_not_mem _ _ _ _ hinotpre, setEntry_cons_self]
    have herase :
        eraseEntry (pre ++ (i, { e with awaiter := e.awaiter.resumedOnce }) :: rest) i =
          pre ++ rest := by
      rw [eraseEntry_append_of_not_mem _ _ _ hinotpre, eraseEntry_cons_self]
    have hnodup' : ((pre ++ rest).map Prod.fst).Nodup := by
      apply List.Nodup.sublist _ hnodup
      apply List.Sublist.map
      exact List.Sublist.append_left (List.sublist_cons_self _ _) pre
    have hself' : ∀ q ∈ rest,
        q.2.awaiter.removeOnResume = none ∨ q.2.awaiter.removeOnResume = some q.1 :=
      fun q hq => hself q (List.mem_cons_of_mem _ hq)
    have hlive' : ∀ q ∈ rest, 1 ≤ q.2.awaiter.countdown :=
      fun q hq => hlive q (List.mem_cons_of_mem _ hq)
    rcases hself (i, e) (List.mem_cons_self _ _) with hnone | hselfi
    · -- no re-entrant removal: cleanup is decided by `done()` after the resume
      replace hnone : e.awaiter.removeOnResume = none := hnone
      have hres : e.awaiter.resumeIn ⟨n, some i, false, pre ++ (i, e) :: rest⟩ =
          (e.awaiter.resumedOnce, ⟨n, some i, false, pre ++ (i, e) :: rest⟩, [], none) := by
        simp [Awaiter.resumeIn, hdone, hnone, Awaiter.resumedOnce]
      by_cases hdone1 : e.awaiter.resumedOnce.done = true
      · have hclean : cleanedThisTick (i, e) = true := by
          simp [cleanedThisTick, hdone1]
        simp only [List.map_cons, Backend.updateGo, hlook, hres, hset, herase, hdone1,
          Bool.or_true, if_true, List.append_nil]
        rw [ih pre n (some i) _ _ hnodup' hself' hlive']
        simp [sweepSpec, hclean, tickedEntry, List.append_assoc, firstSome_assoc]
      · have hclean : cleanedThisTick (i, e) = false := by
          simp only [Bool.not_eq_true] at hdone1
          simp [cleanedThisTick, hdone1, hnone]
        simp only [Bool.not_eq_true] at hdone1
        simp only [List.map_cons, Backend.updateGo, hlook, hres, hset, hdone1,
          Bool.or_false, if_false, List.append_nil]
        have hih := ih (pre ++ [(i, { e with awaiter := e.awaiter.resumedOnce })]) n (some i)
          evs exn (by simpa using hnodup) hself' hlive'
        simp only [List.append_assoc, List.singleton_append] at hih
        rw [hih]
        simp [sweepSpec, hclean, tickedEntry]
    · -- the entry removes itself from inside its own resume: the one-slot
      -- flag is set and cleanup happens right after the resume returns
      replace hselfi : e.awaiter.removeOnResume = some i := hselfi
      have hres : e.awaiter.resumeIn ⟨n, some i, false, pre ++ (i, e) :: rest⟩ =
          (e.awaiter.resumedOnce, ⟨n, some i, true, pre ++ (i, e) :: rest⟩, [], none) := by
        simp [Awaiter.resumeIn, hdone, hselfi, Backend.Remove, Awaiter.resumedOnce]
      have hclean : cleanedThisTick (i, e) = true := by
        simp [cleanedThisTick, hselfi]
      simp only [List.map_cons, Backend.updateGo, hlook, hres, hset, herase,
        Bool.true_or, if_true, List.append_nil]
      rw [ih pre n (some i) _ _ hnodup' hself' hlive']
      simp [sweepSpec, hclean, tickedEntry, List.append_assoc, firstSome_assoc]

theorem sweepSpec_fst (es : List (Nat × AwaiterEntry)) :
    (sweepSpec es).1 = (es.filter fun p => !cleanedThisTick p).map tickedEntry := by
  induction es with
  | nil => rfl
  | cons p rest ih =>
    by_cases h : cleanedThisTick p = true
    · simp [sweepSpec, h, ih]
    · simp only [Bool.not_eq_true] at h
      simp [sweepSpec, h, ih]

theorem sweepSpec_events (es : List (Nat × AwaiterEntry)) :
    (sweepSpec es).2.1 =
      es.flatMap fun p =>
        if cleanedThisTick p then ((tickedEntry p).2.callEndCallback).1 else [] := by
  induction es with
  | nil => rfl
  | cons p rest ih =>
    by_cases h : cleanedThisTick p = true
    · simp [sweepSpec, h, ih]
    · simp only [Bool.not_eq_true] at h
      simp [sweepSpec, h, ih]

theorem sweepSpec_exn (es : List (Nat × AwaiterEntry)) :
    (sweepSpec es).2.2 =
      (es.filterMap fun p =>
        if cleanedThisTick p then ((tickedEntry p).2.callEndCallback).2 else none).head? := by
  induction es with
  | nil => rfl
  | cons p rest ih =>
    by_cases h : cleanedThisTick p = true
    · cases hc : ((tickedEntry p).2.callEndCallback).2 with
      | none => simp [sweepSpec, h, ih, hc, firstSome]
      | some x => simp [sweepSpec, h, hc, firstSome]
    · simp only [Bool.not_eq_true] at h
      simp [sweepSpec, h, ih]

/-- One tick of `Backend::update` on a well-formed state whose entries'
only re-entrant effect is self-removal equals the per-entry independent
sweep. -/
theorem update_eq_sweepSpec (st : BackendState)
    (hc : st.currentAwaiterID = none) (hf : st.currentAwaiterRemovalNeeded = false)
    (hnodup : (st.awaiterEntries.map Prod.fst).Nodup)
    (hself : ∀ p ∈ st.awaiterEntries,
      p.2.awaiter.removeOnResume = none ∨ p.2.awaiter.removeOnResume = some p.1)
    (hlive : ∀ p ∈ st.awaiterEntries, 1 ≤ p.2.awaiter.countdown) :
    Backend.update st =
      ({ st with awaiterEntries := (sweepSpec st.awaiterEntries).1 },
        (sweepSpec st.awaiterEntries).2.1, (sweepSpec st.awaiterEntries).2.2) := by
  obtain ⟨n, c0, flag, es⟩ := st
  simp only at hc hf hnodup hself hlive ⊢
  subst hc hf
  have h := updateGo_eq_sweepSpec es [] n none [] none (by simpa using hnodup) hself hlive
  simpa [Backend.update, firstSome] using h

/-! ## Claim theorems -/

/-- C1: spawning (`ScopedTaskRunner` construction / `Task::runScoped`)
first resumes the task synchronously once.  If the task reaches its
terminal state without awaiting a further frame (done at entry, or done
after that one synchronous resume, i.e. `countdown ≤ 1`), no entry is
ever added to the backend's persistent awaiter map (the state is
untouched), the finish callback fires during the spawn call, and
`done()` on the returned handle is true immediately.  Otherwise the
awaiter — resumed exactly once, witnessed by its decremented countdown —
is registered under the fresh id and nothing else happens. -/
theorem runScoped_fast_path (aw : Awaiter) (fin can : Option Callback) (st : BackendState)
    (heff : aw.removeOnResume = none)
    (hfin : (invokeCallback fin Event.finish).2 = none) :
    (aw.countdown ≤ 1 →
      ScopedTaskRunner.runScoped aw fin can st =
        (⟨none⟩, st, (invokeCallback fin Event.finish).1, none) ∧
      (ScopedTaskRunner.runScoped aw fin can st).1.done st = true) ∧
    (2 ≤ aw.countdown →
      ScopedTaskRunner.runScoped aw fin can st =
        (⟨some st.nextAwaiterID⟩,
          { st with
              nextAwaiterID := st.nextAwaiterID + 1,
              awaiterEntries := st.awaiterEntries ++
                [(st.nextAwaiterID, ⟨⟨aw.countdown - 1, none⟩, fin, can⟩)] },
          [], none)) := by
  obtain ⟨c, rem⟩ := aw
  replace heff : rem = none := heff
  subst heff
  constructor
  · intro h1
    have heq : ScopedTaskRunner.runScoped ⟨c, none⟩ fin can st =
        (⟨none⟩, st, (invokeCallback fin Event.finish).1, none) := by
      interval_cases c
      · simp [ScopedTaskRunner.runScoped, ResumeAwaiterOnceAndRegisterIfNotDone, Awaiter.done,
          hfin]
      · simp [ScopedTaskRunner.runScoped, ResumeAwaiterOnceAndRegisterIfNotDone, Awaiter.done,
          Awaiter.resumeIn, hfin]
    exact ⟨heq, by rw [heq]; rfl⟩
  · intro h2
    replace h2 : 2 ≤ c := h2
    have hd : (⟨c, none⟩ : Awaiter).done = false := by
      simp only [Awaiter.done, decide_eq_false_iff_not]
      omega
    have hd1 : (⟨c - 1, none⟩ : Awaiter).done = false := by
      simp only [Awaiter.done, decide_eq_false_iff_not]
      omega
    simp [ScopedTaskRunner.runScoped, ResumeAwaiterOnceAndRegisterIfNotDone, hd, hd1,
      Awaiter.resumeIn, Backend.Add]

/-- C1 witness: a task that suspends zero further frames (countdown 1):
spawning fires `finish 5` immediately, registers nothing, and the handle
is done. -/
theorem runScoped_fast_path_witness :
    ScopedTaskRunner.runScoped ⟨1, none⟩ (some ⟨5, false⟩) none ⟨1, none, false, []⟩ =
      (⟨none⟩, ⟨1, none, false, []⟩, [Event.finish 5], none) ∧
    (ScopedTaskRunner.runScoped ⟨1, none⟩ (some ⟨5, false⟩) none
        ⟨1, none, false, []⟩).1.done ⟨1, none, false, []⟩ = true := by
  have h := (runScoped_fast_path ⟨1, none⟩ (some ⟨5, false⟩) none ⟨1, none, false, []⟩
    rfl rfl).1 (by decide)
  exact ⟨h.1, h.2⟩

/-- C2: one tick's sweep isolates end-callback faults.  On a well-formed
state of live entries (the only re-entrant effect allowed is
self-removal), `Backend::update` equals the per-entry independent sweep:
every entry is resumed once; every entry due for cleanup has its end
callback invoked and is erased — even when that callback throws — every
other entry is resumed and kept with its countdown advanced, and the
exception reaching the caller after the full sweep is exactly the first
one captured from an end callback, in sweep order. -/
theorem update_isolates_end_callback_faults (st : BackendState)
    (hc : st.currentAwaiterID = none) (hf : st.currentAwaiterRemovalNeeded = false)
    (hnodup : (st.awaiterEntries.map Prod.fst).Nodup)
    (hself : ∀ p ∈ st.awaiterEntries,
      p.2.awaiter.removeOnResume = none ∨ p.2.awaiter.removeOnResume = some p.1)
    (hlive : ∀ p ∈ st.awaiterEntries, 1 ≤ p.2.awaiter.countdown) :
    Backend.update st =
      ({ st with awaiterEntries :=
          (st.awaiterEntries.filter fun p => !cleanedThisTick p).map tickedEntry },
        st.awaiterEntries.flatMap
          (fun p => if cleanedThisTick p then ((tickedEntry p).2.callEndCallback).1 else []),
        (st.awaiterEntries.filterMap fun p =>
          if cleanedThisTick p then ((tickedEntry p).2.callEndCallback).2 else none).head?) := by
  rw [update_eq_sweepSpec st hc hf hnodup hself hlive, sweepSpec_fst, sweepSpec_events,
    sweepSpec_exn]

/-- C2 witness: three live entries; the first two complete this tick and
both their finish callbacks throw.  Both are still erased, the third is
still resumed and kept, and only the first exception (label 11) reaches
the caller after the sweep. -/
theorem update_isolates_end_callback_faults_witness :
    Backend.update
        ⟨4, none, false,
          [(1, ⟨⟨1, none⟩, some ⟨11, true⟩, some ⟨21, false⟩⟩),
           (2, ⟨⟨1, none⟩, some ⟨12, true⟩, some ⟨22, false⟩⟩),
           (3, ⟨⟨2, none⟩, some ⟨13, false⟩, some ⟨23, false⟩⟩)]⟩ =
      (⟨4, none, false, [(3, ⟨⟨1, none⟩, some ⟨13, false⟩, some ⟨23, false⟩⟩)]⟩,
        [Event.finish 11, Event.finish 12], some 11) := by
  have h := update_isolates_end_callback_faults
    ⟨4, none, false,
      [(1, ⟨⟨1, none⟩, some ⟨11, true⟩, some ⟨21, false⟩⟩),
       (2, ⟨⟨1, none⟩, some ⟨12, true⟩, some ⟨22, false⟩⟩),
       (3, ⟨⟨2, none⟩, some ⟨13, false⟩, some ⟨23, false⟩⟩)]⟩
    rfl rfl (by decide) (by decide) (by decide)
  rw [h]
  decide

/-- The events one entry contributes to a sweep never mention the cancel
label `x` when neither of its callbacks carries that label. -/
theorem entry_events_count_zero (x : Nat) (p : Nat × AwaiterEntry)
    (hf : ∀ d, p.2.finishCallback = some d → d.cbId ≠ x)
    (hcn : ∀ d, p.2.cancelCallback = some d → d.cbId ≠ x) :
    (((tickedEntry p).2.callEndCallback).1).count (Event.cancel x) = 0 := by
  simp only [tickedEntry, AwaiterEntry.callEndCallback]
  by_cases hd : p.2.awaiter.resumedOnce.done = true
  · simp only [hd, if_true]
    cases hfc : p.2.finishCallback with
    | none => rfl
    | some d => simp [invokeCallback, List.count_singleton]
  · simp only [Bool.not_eq_true] at hd
    simp only [hd, Bool.false_eq_true, if_false]
    cases hcc : p.2.cancelCallback with
    | none => rfl
    | some d =>
      have := hcn d hcc
      simp [invokeCallback, List.count_singleton, this]

/-- A sweep over entries none of whose callbacks carry the label `x`
produces no `cancel x` event. -/
theorem sweep_count_cancel_zero (x : Nat) (es : List (Nat × AwaiterEntry))
    (h : ∀ p ∈ es, (∀ d, p.2.finishCallback = some d → d.cbId ≠ x) ∧
      (∀ d, p.2.cancelCallback = some d → d.cbId ≠ x)) :
    ((sweepSpec es).2.1).count (Event.cancel x) = 0 := by
  induction es with
  | nil => rfl
  | cons p rest ih =>
    have hp := h p (List.mem_cons_self _ _)
    have hrest := ih fun q hq => h q (List.mem_cons_of_mem _ hq)
    by_cases hcl : cleanedThisTick p = true
    · simp [sweepSpec, hcl, List.count_append, hrest,
        entry_events_count_zero x p hp.1 hp.2]
    · simp only [Bool.not_eq_true] at hcl
      simp [sweepSpec, hcl, hrest]

/-- A sweep containing the self-removing, still-unfinished entry
`(i0, e0)` — whose cancel callback is `c` and whose label no other
entry's callback shares — raises `cancel c.cbId` exactly once. -/
theorem sweep_count_cancel_one (c : Callback) (i0 : Nat) (e0 : AwaiterEntry)
    (hrem : e0.awaiter.removeOnResume = some i0)
    (hcd : 2 ≤ e0.awaiter.countdown)
    (hcb : e0.cancelCallback = some c) :
    ∀ es : List (Nat × AwaiterEntry),
      (es.map Prod.fst).Nodup →
      (i0, e0) ∈ es →
      (∀ p ∈ es, p.1 ≠ i0 →
        (∀ d, p.2.finishCallback = some d → d.cbId ≠ c.cbId) ∧
        (∀ d, p.2.cancelCallback = some d → d.cbId ≠ c.cbId)) →
      ((sweepSpec es).2.1).count (Event.cancel c.cbId) = 1 := by
  intro es
  induction es with
  | nil => intro _ hmem; exact absurd hmem (List.not_mem_nil _)
  | cons p rest ih =>
    intro hnodup hmem hdist
    simp only [List.map_cons, List.nodup_cons] at hnodup
    rcases List.mem_cons.mp hmem with heq | hmem'
    · subst heq
      have hclean : cleanedThisTick (i0, e0) = true := by
        simp [cleanedThisTick, hrem]
      have hev : ((tickedEntry (i0, e0)).2.callEndCallback).1 = [Event.cancel c.cbId] := by
        have hnd : e0.awaiter.resumedOnce.done = false := by
          simp only [Awaiter.resumedOnce, Awaiter.done, decide_eq_false_iff_not]
          omega
        simp [tickedEntry, AwaiterEntry.callEndCallback, hnd, invokeCallback, hcb]
      have hz : ((sweepSpec rest).2.1).count (Event.cancel c.cbId) = 0 := by
        apply sweep_count_cancel_zero
        intro q hq
        have hq1 : q.1 ≠ i0 := by
          intro h
          have hqm : q.1 ∈ rest.map Prod.fst := List.mem_map_of_mem Prod.fst hq
          rw [h] at hqm
          exact hnodup.1 hqm
        exact hdist q (List.mem_cons_of_mem _ hq) hq1
      simp [sweepSpec, hclean, List.count_append, hev, hz, List.count_singleton]
    · have hp1 : p.1 ≠ i0 := by
        intro h
        apply hnodup.1
        rw [h]
        exact List.mem_map_of_mem Prod.fst hmem'
      have hp := hdist p (List.mem_cons_self _ _) hp1
      have hrest := ih hnodup.2 hmem'
        fun q hq hq1 => hdist q (List.mem_cons_of_mem _ hq) hq1
      by_cases hcl : cleanedThisTick p = true
      · simp [sweepSpec, hcl, List.count_append, hrest,
          entry_events_count_zero c.cbId p hp.1 hp.2]
      · simp only [Bool.not_eq_true] at hcl
        simp [sweepSpec, hcl, hrest]

/-- An entry cleaned up by the sweep is gone from the surviving map. -/
theorem notin_sweep_of_cleaned (i0 : Nat) (e0 : AwaiterEntry) :
    ∀ es : List (Nat × AwaiterEntry),
      (es.map Prod.fst).Nodup →
      (i0, e0) ∈ es →
      cleanedThisTick (i0, e0) = true →
      i0 ∉ ((sweepSpec es).1).map Prod.fst := by
  intro es
  induction es with
  | nil => intro _ hmem; exact absurd hmem (List.not_mem_nil _)
  | cons p rest ih =>
    intro hnodup hmem hcl
    simp only [List.map_cons, List.nodup_cons] at hnodup
    have hsub : ∀ xs : List (Nat × AwaiterEntry),
        ((sweepSpec xs).1).map Prod.fst ⊆ xs.map Prod.fst := by
      intro xs
      rw [sweepSpec_fst, List.map_map]
      intro a ha
      simp only [List.mem_map, List.mem_filter, Function.comp] at ha
      obtain ⟨q, ⟨hq, _⟩, hqa⟩ := ha
      have hq1 : q.1 = a := hqa
      rw [← hq1]
      exact List.mem_map_of_mem Prod.fst hq
    rcases List.mem_cons.mp hmem with heq | hmem'
    · subst heq
      simp only [sweepSpec, hcl, if_true]
      intro hin
      exact hnodup.1 (hsub rest hin)
    · have hp1 : p.1 ≠ i0 := by
        intro h
        apply hnodup.1
        rw [h]
        exact List.mem_map_of_mem Prod.fst hmem'
      have hrest := ih hnodup.2 hmem' hcl
      by_cases hclp : cleanedThisTick p = true
      · simp only [sweepSpec, hclp, if_true]
        exact hrest
      · simp only [Bool.not_eq_true] at hclp
        simp only [sweepSpec, hclp, Bool.false_eq_true, if_false, List.map_cons,
          List.mem_cons, tickedEntry]
        rintro (h | h)
        · exact hp1 h.symm
        · exact hrest h

/-- C3 counterexample: the claim asserts that whenever an entry calls
`Backend::Remove` on its own id from inside its own `resume()`, its
*cancel* callback fires exactly once in the same tick.  But when the
entry also reaches its terminal state during that same resume,
`callEndCallback` sees `done()` and fires the *finish* callback instead:
entry 1 (one countdown left, self-removing, finish label 10, cancel
label 20) yields a `finish 10` event and no `cancel 20` event. -/
theorem remove_during_resume_counterexample :
    Backend.update ⟨2, none, false, [(1, ⟨⟨1, some 1⟩, some ⟨10, false⟩, some ⟨20, false⟩⟩)]⟩ =
      (⟨2, none, false, []⟩, [Event.finish 10], none) ∧
    ((Backend.update
        ⟨2, none, false, [(1, ⟨⟨1, some 1⟩, some ⟨10, false⟩, some ⟨20, false⟩⟩)]⟩).2.1).count
      (Event.cancel 20) = 0 := by
  constructor
  · rfl
  · rfl

/-- C3 (amended): `Backend::Remove(id)` outside the currently-resuming
entry fires that entry's cancel callback immediately (assuming it does
not throw) and erases it; `Remove` on the currently-resuming entry only
sets the single-slot removal flag (no erase, no callback yet); and a
registered entry that removes itself from inside its own `resume()`
*and is still unfinished when that resume returns* has its cancel
callback fire exactly once during the same tick, after which the entry
is erased.  (If the entry completed during that same resume, its finish
callback fires instead — the correction the counterexample forces.) -/
theorem remove_selfCancellation_deferred :
    (∀ (st : BackendState) (id : Nat) (e : AwaiterEntry),
      st.currentAwaiterID ≠ some id →
      lookupEntry st.awaiterEntries id = some e →
      e.awaiter.done = false →
      (invokeCallback e.cancelCallback Event.cancel).2 = none →
      Backend.Remove st id =
        ({ st with awaiterEntries := eraseEntry st.awaiterEntries id },
          (invokeCallback e.cancelCallback Event.cancel).1, none)) ∧
    (∀ (st : BackendState) (id : Nat),
      st.currentAwaiterID = some id →
      Backend.Remove st id = ({ st with currentAwaiterRemovalNeeded := true }, [], none)) ∧
    (∀ (st : BackendState) (i0 : Nat) (e0 : AwaiterEntry) (c : Callback),
      st.currentAwaiterID = none →
      st.currentAwaiterRemovalNeeded = false →
      (st.awaiterEntries.map Prod.fst).Nodup →
      (∀ p ∈ st.awaiterEntries,
        p.2.awaiter.removeOnResume = none ∨ p.2.awaiter.removeOnResume = some p.1) →
      (∀ p ∈ st.awaiterEntries, 1 ≤ p.2.awaiter.countdown) →
      (i0, e0) ∈ st.awaiterEntries →
      e0.awaiter.removeOnResume = some i0 →
      2 ≤ e0.awaiter.countdown →
      e0.cancelCallback = some c →
      (∀ p ∈ st.awaiterEntries, p.1 ≠ i0 →
        (∀ d, p.2.finishCallback = some d → d.cbId ≠ c.cbId) ∧
        (∀ d, p.2.cancelCallback = some d → d.cbId ≠ c.cbId)) →
      ((Backend.update st).2.1).count (Event.cancel c.cbId) = 1 ∧
      i0 ∉ ((Backend.update st).1.awaiterEntries).map Prod.fst) := by
  refine ⟨?_, ?_, ?_⟩
  · intro st id e hne hlook hdone hnothrow
    simp only [Backend.Remove, if_neg hne, hlook, AwaiterEntry.callEndCallback, hdone,
      Bool.false_eq_true, if_false]
    rw [hnothrow]
  · intro st id h
    simp [Backend.Remove, h]
  · intro st i0 e0 c hc hf hnodup hself hlive hmem hrem hcd hcb hdist
    rw [update_eq_sweepSpec st hc hf hnodup hself hlive]
    exact ⟨sweep_count_cancel_one c i0 e0 hrem hcd hcb st.awaiterEntries hnodup hmem hdist,
      notin_sweep_of_cleaned i0 e0 st.awaiterEntries hnodup hmem
        (by simp [cleanedThisTick, hrem])⟩

/-- C3 witness: concrete instances of all three conjuncts.  An external
`Remove 1` cancels (label 7) and erases entry 1; `Remove 2` while entry 2
is mid-resume only sets the flag; and in a two-entry tick where entry 1
(countdown 3) removes itself, `cancel 2` fires exactly once and entry 1
is gone afterwards. -/
theorem remove_selfCancellation_deferred_witness :
    Backend.Remove ⟨3, none, false, [(1, ⟨⟨2, none⟩, none, some ⟨7, false⟩⟩)]⟩ 1 =
      (⟨3, none, false, []⟩, [Event.cancel 7], none) ∧
    Backend.Remove ⟨3, some 2, false, []⟩ 2 = (⟨3, some 2, true, []⟩, [], none) ∧
    ((Backend.update
        ⟨3, none, false,
          [(1, ⟨⟨3, some 1⟩, some ⟨1, false⟩, some ⟨2, false⟩⟩),
           (2, ⟨⟨5, none⟩, some ⟨3, false⟩, some ⟨4, false⟩⟩)]⟩).2.1).count
      (Event.cancel 2) = 1 ∧
    1 ∉ ((Backend.update
        ⟨3, none, false,
          [(1, ⟨⟨3, some 1⟩, some ⟨1, false⟩, some ⟨2, false⟩⟩),
           (2, ⟨⟨5, none⟩, some ⟨3, false⟩, some ⟨4, false⟩⟩)]⟩).1.awaiterEntries).map
      Prod.fst := by
  refine ⟨?_, ?_, ?_⟩
  · have h := remove_selfCancellation_deferred.1
      ⟨3, none, false, [(1, ⟨⟨2, none⟩, none, some ⟨7, false⟩⟩)]⟩ 1
      ⟨⟨2, none⟩, none, some ⟨7, false⟩⟩ (by decide) rfl rfl rfl
    rw [h]
    rfl
  · exact remove_selfCancellation_deferred.2.1 ⟨3, some 2, false, []⟩ 2 rfl
  · exact remove_selfCancellation_deferred.2.2
      ⟨3, none, false,
        [(1, ⟨⟨3, some 1⟩, some ⟨1, false⟩, some ⟨2, false⟩⟩),
         (2, ⟨⟨5, none⟩, some ⟨3, false⟩, some ⟨4, false⟩⟩)]⟩
      1 ⟨⟨3, some 1⟩, some ⟨1, false⟩, some ⟨2, false⟩⟩ ⟨2, false⟩
      rfl rfl (by decide) (by decide) (by decide) (by decide) rfl (by decide) rfl (by decide)

/-- C10: with no backend instance (`s_pInstance == nullptr`, i.e. never
initialized or already destroyed at addon teardown), `Backend::Remove`
returns silently — no error, no callback — so destroying a
`ScopedTaskRunner` that outlives the backend is a safe no-op, whereas
`Backend::IsDone` in the same state throws. -/
theorem remove_safe_without_instance :
    (∀ id : Nat, Backend.RemoveS none id = (none, [], none)) ∧
    (∀ r : ScopedTaskRunner, r.destruct none = (none, [], none)) ∧
    (∀ id : Nat, Backend.IsDoneS none id = Except.error "Backend is not initialized") := by
  refine ⟨fun id => rfl, fun r => ?_, fun id => rfl⟩
  obtain ⟨mid⟩ := r
  cases mid <;> rfl

/-- C4: `resume()` performs at most one logical step with delegated
resumption: a pending sub-awaiter is resumed first; if it is still
unfinished afterwards the outer body does not advance at all during that
call (same suspend point, same sub-awaiter slot minus one resume, not
done); the outer body advances — to its next suspend point or to
completion, via `advanceBody` — exactly when no unfinished sub-awaiter
remains: none was pending, or the pending one finished during this very
resume. -/
theorem resume_delegates_to_sub_awaiter (body : Nat → Option (Option Nat)) (p : PromiseState)
    (hnd : p.isDone = false) :
    (∀ n, p.subAwaiter = some n → 2 ≤ n →
      handleResume body p = { p with subAwaiter := some (n - 1) }) ∧
    (p.subAwaiter = some 1 →
      handleResume body p = advanceBody body { p with subAwaiter := none }) ∧
    (p.subAwaiter = none → handleResume body p = advanceBody body p) := by
  refine ⟨?_, ?_, ?_⟩
  · intro n hs h2
    have hne : ¬(n - 1 = 0) := by omega
    simp [handleResume, hnd, PromiseState.resumeSubAwaiter, hs, hne]
  · intro hs
    simp [handleResume, hnd, PromiseState.resumeSubAwaiter, hs]
  · intro hs
    simp [handleResume, hnd, PromiseState.resumeSubAwaiter, hs]

/-- C4 witness: with a sub-awaiter two-or-more resumes from done, one
outer resume only decrements it (body pinned at suspend point 5); with a
sub-awaiter finishing on this resume the body advances to point 6; with
no sub-awaiter the body advances (here: to completion). -/
theorem resume_delegates_to_sub_awaiter_witness :
    handleResume (fun _ => some none) ⟨some 3, 5, false⟩ = ⟨some 2, 5, false⟩ ∧
    handleResume (fun _ => some none) ⟨some 1, 5, false⟩ = ⟨none, 6, false⟩ ∧
    handleResume (fun _ => none) ⟨none, 5, false⟩ = ⟨none, 6, true⟩ := by
  refine ⟨?_, ?_, ?_⟩
  · exact (resume_delegates_to_sub_awaiter (fun _ => some none) ⟨some 3, 5, false⟩ rfl).1 3
      rfl (by omega)
  · exact (resume_delegates_to_sub_awaiter (fun _ => some none) ⟨some 1, 5, false⟩ rfl).2.1 rfl
  · exact (resume_delegates_to_sub_awaiter (fun _ => none) ⟨none, 5, false⟩ rfl).2.2 rfl

/-- A successful `result()` hands back the consumed-and-cleared state. -/
theorem result_ok_state {α : Type} (s : TaskFinishSource α) (r : α × TaskFinishSource α)
    (h : s.result = Except.ok r) : r.2 = ⟨none, true⟩ := by
  unfold TaskFinishSource.result at h
  by_cases hc : s.m_resultConsumed = true
  · simp [hc] at h
  · simp only [Bool.not_eq_true] at hc
    cases hm : s.m_result with
    | none => simp [hc, hm] at h
    | some v =>
      simp only [hc, hm, Bool.false_eq_true, if_false] at h
      cases h
      rfl

/-- Once a result was stored or consumed, every later `requestFinish`
fails. -/
theorem runFinishOps_all_false {α : Type} (ops : List (FinishOp α)) :
    ∀ s : TaskFinishSource α, (s.m_resultConsumed || s.hasResult) = true →
      (runFinishOps s ops).2 = List.replicate (countRequests ops) false := by
  induction ops with
  | nil => intro s _; rfl
  | cons op rest ih =>
    intro s hs
    cases op with
    | requestFinish x =>
      simp only [runFinishOps, TaskFinishSource.requestFinish, hs, if_true, countRequests,
        List.replicate_succ]
      exact congrArg (List.cons false) (ih s hs)
    | getResult =>
      cases hr : s.result with
      | error msg =>
        simp only [runFinishOps, hr, countRequests]
        exact ih s hs
      | ok r =>
        simp only [runFinishOps, hr, countRequests]
        exact ih r.2 (by rw [result_ok_state s r hr]; rfl)

/-- From a state with no stored and no consumed result, the first
`requestFinish` of the sequence succeeds and every later one fails;
`result()` calls before it do not disturb this. -/
theorem runFinishOps_first_true {α : Type} (ops : List (FinishOp α)) :
    ∀ s : TaskFinishSource α, s.m_resultConsumed = false → s.m_result = none →
      (runFinishOps s ops).2 =
        if countRequests ops = 0 then []
        else true :: List.replicate (countRequests ops - 1) false := by
  induction ops with
  | nil => intro s _ _; rfl
  | cons op rest ih =>
    intro s hc hm
    cases op with
    | requestFinish x =>
      have hs : (s.m_resultConsumed || s.hasResult) = false := by
        simp [hc, TaskFinishSource.hasResult, hm]
      simp only [runFinishOps, TaskFinishSource.requestFinish, hs, Bool.false_eq_true,
        if_false, countRequests]
      rw [runFinishOps_all_false rest _ (by simp [TaskFinishSource.hasResult])]
      simp
    | getResult =>
      have hr : s.result =
          Except.error "TaskFinishSource: TaskFinishSource does not have a result." := by
        simp [TaskFinishSource.result, hc, hm]
      simp only [runFinishOps, hr, countRequests]
      exact ih s hc hm

/-- C8: across every call sequence against one `TaskFinishSource`,
`requestFinish` returns true for exactly one call — the first one made
while no result is stored and none was consumed — and false for every
other call; `result()` returns the stored value on its first call after
a successful `requestFinish`, and throws both when no result is stored
and on any second call. -/
theorem taskFinishSource_exactly_once (α : Type) :
    (∀ ops : List (FinishOp α),
      (runFinishOps (@TaskFinishSource.fresh α) ops).2 =
        if countRequests ops = 0 then []
        else true :: List.replicate (countRequests ops - 1) false) ∧
    (∀ (s : TaskFinishSource α) (x : α), s.m_resultConsumed = false → s.m_result = some x →
      s.result = Except.ok (x, ⟨none, true⟩)) ∧
    (∀ s : TaskFinishSource α, s.m_resultConsumed = false → s.m_result = none →
      s.result = Except.error "TaskFinishSource: TaskFinishSource does not have a result.") ∧
    (∀ s : TaskFinishSource α, s.m_resultConsumed = true →
      s.result = Except.error "TaskFinishSource: result can be get only once.") := by
  refine ⟨fun ops => runFinishOps_first_true ops _ rfl rfl, ?_, ?_, ?_⟩
  · intro s x hc hm
    simp [TaskFinishSource.result, hc, hm]
  · intro s hc hm
    simp [TaskFinishSource.result, hc, hm]
  · intro s hc
    simp [TaskFinishSource.result, hc]

/-- C8 witness: a failing early read, then three `requestFinish` calls
(only the first succeeds), plus the `result()` behaviours at concrete
states: stored-unconsumed reads once, empty read fails, second read
fails. -/
theorem taskFinishSource_exactly_once_witness :
    (runFinishOps (@TaskFinishSource.fresh Nat)
        [FinishOp.getResult, FinishOp.requestFinish 7, FinishOp.requestFinish 8,
         FinishOp.getResult, FinishOp.requestFinish 9]).2 = [true, false, false] ∧
    (⟨some 3, false⟩ : TaskFinishSource Nat).result = Except.ok (3, ⟨none, true⟩) ∧
    (⟨none, false⟩ : TaskFinishSource Nat).result =
      Except.error "TaskFinishSource: TaskFinishSource does not have a result." ∧
    (⟨none, true⟩ : TaskFinishSource Nat).result =
      Except.error "TaskFinishSource: result can be get only once." := by
  refine ⟨?_, ?_, ?_, ?_⟩
  · rw [(taskFinishSource_exactly_once Nat).1
      [FinishOp.getResult, FinishOp.requestFinish 7, FinishOp.requestFinish 8,
       FinishOp.getResult, FinishOp.requestFinish 9]]
    rfl
  · exact (taskFinishSource_exactly_once Nat).2.1 ⟨some 3, false⟩ 3 rfl rfl
  · exact (taskFinishSource_exactly_once Nat).2.2.1 ⟨none, false⟩ rfl rfl
  · exact (taskFinishSource_exactly_once Nat).2.2.2 ⟨none, true⟩ rfl

/-- C9: `Promise::value()` throws before the task reaches its terminal
state (set flag still false); after completion the first call returns
the produced value (or rethrows the captured failure) while latching the
consumed flag; any second call throws (read-once); and a set completion
slot is never overwritten — both `return_value` and
`unhandled_exception` fail on an already-satisfied promise, leaving the
slot intact. -/
theorem promise_value_read_once (α : Type) :
    (∀ p : Promise α, p.m_isResultSet = false →
      p.value = (ValueOutcome.notCompleted, p)) ∧
    (∀ (p : Promise α) (v : α), p.m_isResultSet = true → p.m_resultConsumed = false →
      p.m_value = some (Except.ok v) →
      p.value = (ValueOutcome.ok v, { p with m_resultConsumed := true })) ∧
    (∀ (p : Promise α) (e : Nat), p.m_isResultSet = true → p.m_resultConsumed = false →
      p.m_value = some (Except.error e) →
      p.value = (ValueOutcome.fault e, { p with m_resultConsumed := true })) ∧
    (∀ p : Promise α, p.m_isResultSet = true → p.m_resultConsumed = true →
      p.value = (ValueOutcome.consumedTwice, p)) ∧
    (∀ (p : Promise α) (v : α), p.m_isResultSet = true → p.m_resultConsumed = false →
      p.m_value = some (Except.ok v) →
      ((p.value).2).value = (ValueOutcome.consumedTwice, (p.value).2)) ∧
    (∀ (p : Promise α) (r : Except Nat α), p.m_value = some r →
      (∀ v, p.return_value v =
        Except.error "std::future_error: promise already satisfied") ∧
      (∀ e, p.unhandled_exception e =
        Except.error "std::future_error: promise already satisfied")) := by
  refine ⟨?_, ?_, ?_, ?_, ?_, ?_⟩
  · intro p h
    simp [Promise.value, h]
  · intro p v hs hc hv
    simp [Promise.value, hs, hc, hv]
  · intro p e hs hc hv
    simp [Promise.value, hs, hc, hv]
  · intro p hs hc
    simp [Promise.value, hs, hc]
  · intro p v hs hc hv
    simp [Promise.value, hs, hc, hv]
  · intro p r hv
    exact ⟨fun v => by simp [Promise.return_value, hv],
      fun e => by simp [Promise.unhandled_exception, hv]⟩

/-- C9 witness: concrete promises — unset slot throws not-completed; a
completed value reads once then throws; a captured failure rethrows; the
satisfied slot rejects any overwrite. -/
theorem promise_value_read_once_witness :
    (⟨none, false, false⟩ : Promise Nat).value =
      (ValueOutcome.notCompleted, ⟨none, false, false⟩) ∧
    (⟨some (Except.ok 42), true, false⟩ : Promise Nat).value =
      (ValueOutcome.ok 42, ⟨some (Except.ok 42), true, true⟩) ∧
    (⟨some (Except.error 9), true, false⟩ : Promise Nat).value =
      (ValueOutcome.fault 9, ⟨some (Except.error 9), true, true⟩) ∧
    (⟨some (Except.ok 42), true, true⟩ : Promise Nat).value =
      (ValueOutcome.consumedTwice, ⟨some (Except.ok 42), true, true⟩) ∧
    (⟨some (Except.ok 42), true, false⟩ : Promise Nat).return_value 5 =
      Except.error "std::future_error: promise already satisfied" := by
  refine ⟨?_, ?_, ?_, ?_, ?_⟩
  · exact (promise_value_read_once Nat).1 ⟨none, false, false⟩ rfl
  · exact (promise_value_read_once Nat).2.1 ⟨some (Except.ok 42), true, false⟩ 42 rfl rfl rfl
  · exact (promise_value_read_once Nat).2.2.1 ⟨some (Except.error 9), true, false⟩ 9 rfl rfl rfl
  · exact (promise_value_read_once Nat).2.2.2.1 ⟨some (Except.ok 42), true, true⟩ rfl rfl
  · exact ((promise_value_read_once Nat).2.2.2.2.2 ⟨some (Except.ok 42), true, false⟩
      (Except.ok 42) rfl).1 5

/-! ## Supporting lemmas for `All`/`Any` -/

theorem MTask.afterResumes_zero {α : Type} (t : MTask α) : t.afterResumes 0 = t := by
  obtain ⟨r, adv, res⟩ := t
  simp [MTask.afterResumes]

theorem MTask.resume_afterResumes {α : Type} (t : MTask α) (k : Nat) :
    (t.afterResumes k).resume = t.afterResumes (k + 1) := by
  obtain ⟨r, adv, res⟩ := t
  simp only [MTask.afterResumes, MTask.resume, MTask.done]
  by_cases h : r - k = 0
  · rw [if_pos (by simpa using h)]
    simp only [MTask.mk.injEq]
    exact ⟨by omega, by omega, trivial⟩
  · rw [if_neg (by simpa using h)]
    simp only [MTask.mk.injEq]
    exact ⟨by omega, by omega, trivial⟩

theorem MTask.resume_eq_afterResumes_one {α : Type} (t : MTask α) :
    t.resume = t.afterResumes 1 := by
  conv_lhs => rw [← MTask.afterResumes_zero t]
  rw [MTask.resume_afterResumes]

theorem MTask.afterResumes_done {α : Type} (t : MTask α) (k : Nat) :
    (t.afterResumes k).done = decide (t.remaining ≤ k) := by
  simp [MTask.done, MTask.afterResumes, Nat.sub_eq_zero_iff_le]

theorem allLoopIter_step {α β : Type} (a : MTask α) (b : MTask β) (k : Nat)
    (h : k + 1 < max a.remaining b.remaining) :
    allLoopIter ⟨a.afterResumes k, b.afterResumes k, true, none⟩ =
      ⟨a.afterResumes (k + 1), b.afterResumes (k + 1), true, none⟩ := by
  have hAB : ((a.afterResumes (k + 1)).done && (b.afterResumes (k + 1)).done) = false := by
    simp only [MTask.afterResumes_done, Bool.and_eq_false_iff, decide_eq_false_iff_not]
    omega
  simp only [allLoopIter, MTask.resume_afterResumes, hAB, Bool.false_eq_true, if_false]

theorem allLoopIter_complete {α β : Type} (a : MTask α) (b : MTask β) (k : Nat)
    (h : max a.remaining b.remaining ≤ k + 1) :
    allLoopIter ⟨a.afterResumes k, b.afterResumes k, true, none⟩ =
      ⟨a.afterResumes (k + 1), b.afterResumes (k + 1), true,
        some (allComplete (a.afterResumes (k + 1)) (b.afterResumes (k + 1)))⟩ := by
  have hAB : ((a.afterResumes (k + 1)).done && (b.afterResumes (k + 1)).done) = true := by
    simp only [MTask.afterResumes_done, Bool.and_eq_true, decide_eq_true_eq]
    omega
  simp only [allLoopIter, MTask.resume_afterResumes, hAB, if_true]

theorem allRun_running {α β : Type} (a : MTask α) (b : MTask β) :
    ∀ k, 1 ≤ k → k < max a.remaining b.remaining →
      allRun a b k = ⟨a.afterResumes k, b.afterResumes k, true, none⟩ := by
  intro k
  induction k with
  | zero => intro h _; exact absurd h (by omega)
  | succ k ih =>
    intro _ hlt
    by_cases hk : k = 0
    · subst hk
      have hAB : (a.done && b.done) = false := by
        simp only [MTask.done, Bool.and_eq_false_iff, decide_eq_false_iff_not]
        omega
      have hstep := allLoopIter_step a b 0 hlt
      rw [MTask.afterResumes_zero, MTask.afterResumes_zero] at hstep
      simp only [allRun, AllInit, AllState.resume, AllState.done, Option.isSome_none,
        Bool.false_eq_true, if_false, if_true, hAB]
      exact hstep
    · have hj := ih (by omega) (by omega)
      simp only [allRun, hj, AllState.resume, AllState.done, Option.isSome_none,
        Bool.false_eq_true, if_false, Bool.true_eq_false]
      exact allLoopIter_step a b k hlt

theorem allRun_completes {α β : Type} (a : MTask α) (b : MTask β)
    (hn : ¬(a.remaining = 0 ∧ b.remaining = 0)) :
    allRun a b (max a.remaining b.remaining) =
      ⟨a.afterResumes (max a.remaining b.remaining),
       b.afterResumes (max a.remaining b.remaining), true,
       some (allComplete (a.afterResumes (max a.remaining b.remaining))
          (b.afterResumes (max a.remaining b.remaining)))⟩ := by
  by_cases h1 : max a.remaining b.remaining = 1
  · have hAB : (a.done && b.done) = false := by
      simp only [MTask.done, Bool.and_eq_false_iff, decide_eq_false_iff_not]
      omega
    have hstep := allLoopIter_complete a b 0 (by omega)
    rw [MTask.afterResumes_zero, MTask.afterResumes_zero] at hstep
    rw [h1]
    simp only [allRun, AllInit, AllState.resume, AllState.done, Option.isSome_none,
      Bool.false_eq_true, if_false, if_true, hAB]
    exact hstep
  · have h2 : 2 ≤ max a.remaining b.remaining := by omega
    have hrun := allRun_running a b (max a.remaining b.remaining - 1) (by omega) (by omega)
    have hstep : allRun a b (max a.remaining b.remaining) =
        (allRun a b (max a.remaining b.remaining - 1)).resume := by
      conv_lhs => rw [show max a.remaining b.remaining =
        (max a.remaining b.remaining - 1) + 1 by omega]
      rfl
    rw [hstep, hrun]
    simp only [AllState.resume, AllState.done, Option.isSome_none, Bool.false_eq_true,
      if_false, Bool.true_eq_false]
    have hc := allLoopIter_complete a b (max a.remaining b.remaining - 1) (by omega)
    rw [show max a.remaining b.remaining - 1 + 1 = max a.remaining b.remaining by omega] at hc
    exact hc

theorem allRun_frozen {α β : Type} (a : MTask α) (b : MTask β) (k : Nat)
    (hd : (allRun a b k).done = true) :
    ∀ j, k ≤ j → allRun a b j = allRun a b k := by
  intro j
  induction j with
  | zero => intro h; rw [show k = 0 by omega]
  | succ j ih =>
    intro hkj
    by_cases h : k = j + 1
    · rw [h]
    · rw [allRun, ih (by omega), AllState.resume, if_pos hd]

/-- C5: `All(a, b)`.  If every argument is already done at entry, the
first (spawn-time) resume completes the combinator with the tuple of
results in argument order without resuming any argument or awaiting any
frame.  Otherwise it is not done before the tick on which the last
argument finishes; on that tick (`max` of the arguments' remaining
counts) it completes with the arguments' originally-produced results in
order, and each argument's body was advanced exactly `remaining` times —
an argument that finished early is never advanced again; past completion
the combinator is inert.  (`Task<void>` arguments are tasks over
`VoidResult`.) -/
theorem all_fixed_order_join (α β : Type) (a : MTask α) (b : MTask β) :
    (a.remaining = 0 → b.remaining = 0 →
      allRun a b 1 = ⟨a, b, true, some (allComplete a b)⟩) ∧
    (∀ k, k < max a.remaining b.remaining → (allRun a b k).done = false) ∧
    (¬(a.remaining = 0 ∧ b.remaining = 0) → ∀ va vb,
      a.result = Except.ok va → b.result = Except.ok vb →
      (allRun a b (max a.remaining b.remaining)).completed = some (Except.ok (va, vb)) ∧
      (allRun a b (max a.remaining b.remaining)).a.advanceCount =
        a.advanceCount + a.remaining ∧
      (allRun a b (max a.remaining b.remaining)).b.advanceCount =
        b.advanceCount + b.remaining) ∧
    (¬(a.remaining = 0 ∧ b.remaining = 0) → ∀ j, max a.remaining b.remaining ≤ j →
      allRun a b j = allRun a b (max a.remaining b.remaining)) := by
  refine ⟨?_, ?_, ?_, ?_⟩
  · intro ha hb
    have hAB : (a.done && b.done) = true := by
      simp [MTask.done, ha, hb]
    simp only [allRun, AllInit, AllState.resume, AllState.done, Option.isSome_none,
      Bool.false_eq_true, if_false, if_true, hAB]
  · intro k hlt
    cases k with
    | zero => rfl
    | succ k =>
      rw [allRun_running a b (k + 1) (by omega) hlt]
      rfl
  · intro hn va vb hva hvb
    rw [allRun_completes a b hn]
    refine ⟨?_, ?_, ?_⟩
    · simp [allComplete, ConvertVoidResult, MTask.afterResumes, hva, hvb]
    · simp only [MTask.afterResumes]
      omega
    · simp only [MTask.afterResumes]
      omega
  · intro hn j hj
    exact allRun_frozen a b (max a.remaining b.remaining)
      (by rw [allRun_completes a b hn]; rfl) j hj

/-- C5 witness: `All(A, B)` with A done on tick 1 (value 10) and B done
on tick 3 (value 20) is not done at ticks 1 and 2 and completes on tick
3 with A's originally-produced result; A's body advanced exactly once.
Plus the entry fast path at already-done arguments (one of them a
`Task<void>` over `VoidResult`): done on the spawn resume with the
fixed-order tuple, no argument advanced. -/
theorem all_fixed_order_join_witness :
    (allRun (⟨1, 0, Except.ok 10⟩ : MTask Nat) (⟨3, 0, Except.ok 20⟩ : MTask Nat) 1).done
        = false ∧
    (allRun (⟨1, 0, Except.ok 10⟩ : MTask Nat) (⟨3, 0, Except.ok 20⟩ : MTask Nat) 2).done
        = false ∧
    (allRun (⟨1, 0, Except.ok 10⟩ : MTask Nat) (⟨3, 0, Except.ok 20⟩ : MTask Nat) 3).completed
        = some (Except.ok (10, 20)) ∧
    (allRun (⟨1, 0, Except.ok 10⟩ : MTask Nat) (⟨3, 0, Except.ok 20⟩ : MTask Nat)
        3).a.advanceCount = 1 ∧
    allRun (⟨0, 0, Except.ok VoidResult.mk⟩ : MTask VoidResult)
        (⟨0, 0, Except.ok 5⟩ : MTask Nat) 1 =
      ⟨⟨0, 0, Except.ok VoidResult.mk⟩, ⟨0, 0, Except.ok 5⟩, true,
        some (Except.ok (VoidResult.mk, 5))⟩ := by
  refine ⟨?_, ?_, ?_, ?_, ?_⟩
  · exact (all_fixed_order_join Nat Nat ⟨1, 0, Except.ok 10⟩ ⟨3, 0, Except.ok 20⟩).2.1 1
      (by decide)
  · exact (all_fixed_order_join Nat Nat ⟨1, 0, Except.ok 10⟩ ⟨3, 0, Except.ok 20⟩).2.1 2
      (by decide)
  · exact ((all_fixed_order_join Nat Nat ⟨1, 0, Except.ok 10⟩ ⟨3, 0, Except.ok 20⟩).2.2.1
      (by decide) 10 20 rfl rfl).1
  · exact ((all_fixed_order_join Nat Nat ⟨1, 0, Except.ok 10⟩ ⟨3, 0, Except.ok 20⟩).2.2.1
      (by decide) 10 20 rfl rfl).2.1
  · exact (all_fixed_order_join VoidResult Nat ⟨0, 0, Except.ok VoidResult.mk⟩
      ⟨0, 0, Except.ok 5⟩).1 rfl rfl

theorem anyLoopIter_step {α β : Type} (a : MTask α) (b : MTask β) (k : Nat)
    (h : k + 1 < min a.remaining b.remaining) :
    anyLoopIter ⟨a.afterResumes k, b.afterResumes k, true, none⟩ =
      ⟨a.afterResumes (k + 1), b.afterResumes (k + 1), true, none⟩ := by
  have hAB : ((a.afterResumes (k + 1)).done || (b.afterResumes (k + 1)).done) = false := by
    simp only [MTask.afterResumes_done, Bool.or_eq_false_iff, decide_eq_false_iff_not]
    omega
  simp only [anyLoopIter, MTask.resume_afterResumes, hAB, Bool.false_eq_true, if_false]

theorem anyLoopIter_complete {α β : Type} (a : MTask α) (b : MTask β) (k : Nat)
    (h : min a.remaining b.remaining ≤ k + 1) :
    anyLoopIter ⟨a.afterResumes k, b.afterResumes k, true, none⟩ =
      ⟨a.afterResumes (k + 1), b.afterResumes (k + 1), true,
        some (anyComplete (a.afterResumes (k + 1)) (b.afterResumes (k + 1)))⟩ := by
  have hAB : ((a.afterResumes (k + 1)).done || (b.afterResumes (k + 1)).done) = true := by
    simp only [MTask.afterResumes_done, Bool.or_eq_true, decide_eq_true_eq]
    omega
  simp only [anyLoopIter, MTask.resume_afterResumes, hAB, if_true]

theorem anyRun_running {α β : Type} (a : MTask α) (b : MTask β) :
    ∀ k, 1 ≤ k → k < min a.remaining b.remaining →
      anyRun a b k = ⟨a.afterResumes k, b.afterResumes k, true, none⟩ := by
  intro k
  induction k with
  | zero => intro h _; exact absurd h (by omega)
  | succ k ih =>
    intro _ hlt
    by_cases hk : k = 0
    · subst hk
      have hAB : (a.done || b.done) = false := by
        simp only [MTask.done, Bool.or_eq_false_iff, decide_eq_false_iff_not]
        omega
      have hstep := anyLoopIter_step a b 0 hlt
      rw [MTask.afterResumes_zero, MTask.afterResumes_zero] at hstep
      simp only [anyRun, AnyInit, AnyState.resume, AnyState.done, Option.isSome_none,
        Bool.false_eq_true, if_false, if_true, hAB]
      exact hstep
    · have hj := ih (by omega) (by omega)
      simp only [anyRun, hj, AnyState.resume, AnyState.done, Option.isSome_none,
        Bool.false_eq_true, if_false, Bool.true_eq_false]
      exact anyLoopIter_step a b k hlt

theorem anyRun_completes {α β : Type} (a : MTask α) (b : MTask β)
    (ha : 1 ≤ a.remaining) (hb : 1 ≤ b.remaining) :
    anyRun a b (min a.remaining b.remaining) =
      ⟨a.afterResumes (min a.remaining b.remaining),
       b.afterResumes (min a.remaining b.remaining), true,
       some (anyComplete (a.afterResumes (min a.remaining b.remaining))
          (b.afterResumes (min a.remaining b.remaining)))⟩ := by
  by_cases h1 : min a.remaining b.remaining = 1
  · have hAB : (a.done || b.done) = false := by
      simp only [MTask.done, Bool.or_eq_false_iff, decide_eq_false_iff_not]
      omega
    have hstep := anyLoopIter_complete a b 0 (by omega)
    rw [MTask.afterResumes_zero, MTask.afterResumes_zero] at hstep
    rw [h1]
    simp only [anyRun, AnyInit, AnyState.resume, AnyState.done, Option.isSome_none,
      Bool.false_eq_true, if_false, if_true, hAB]
    exact hstep
  · have h2 : 2 ≤ min a.remaining b.remaining := by omega
    have hrun := anyRun_running a b (min a.remaining b.remaining - 1) (by omega) (by omega)
    have hstep : anyRun a b (min a.remaining b.remaining) =
        (anyRun a b (min a.remaining b.remaining - 1)).resume := by
      conv_lhs => rw [show min a.remaining b.remaining =
        (min a.remaining b.remaining - 1) + 1 by omega]
      rfl
    rw [hstep, hrun]
    simp only [AnyState.resume, AnyState.done, Option.isSome_none, Bool.false_eq_true,
      if_false, Bool.true_eq_false]
    have hc := anyLoopIter_complete a b (min a.remaining b.remaining - 1) (by omega)
    rw [show min a.remaining b.remaining - 1 + 1 = min a.remaining b.remaining by omega] at hc
    exact hc

theorem anyRun_frozen {α β : Type} (a : MTask α) (b : MTask β) (k : Nat)
    (hd : (anyRun a b k).done = true) :
    ∀ j, k ≤ j → anyRun a b j = anyRun a b k := by
  intro j
  induction j with
  | zero => intro h; rw [show k = 0 by omega]
  | succ j ih =>
    intro hkj
    by_cases h : k = j + 1
    · rw [h]
    · rw [anyRun, ih (by omega), AnyState.resume, if_pos hd]

/-- C6: `Any(a, b)`.  It completes on the first tick at which at least
one argument is done — immediately on the spawn resume when already true
at entry, with no argument resumed — returning a tuple whose slot `i`
holds argument `i`'s result exactly when that argument is done and is
absent otherwise.  A failure captured by *either* argument's body
propagates into Any's completion slot on the tick that argument
finishes, without waiting for the sibling: conjuncts cover a fault in
the first argument finishing no later than the second, a fault in the
second argument finishing strictly first, and a fault in the second
argument when both finish on the same tick (when both fault on the same
tick the first argument's fault is the one fetched, per the conversion
order at `co_return`).  Any never cancels the unfinished sibling: its
state (including its pending result) is carried unchanged in the frame
and Any never touches it after completing. -/
theorem any_first_done_fail_fast (α β : Type) (a : MTask α) (b : MTask β) :
    ((a.remaining = 0 ∨ b.remaining = 0) →
      anyRun a b 1 = ⟨a, b, true, some (anyComplete a b)⟩) ∧
    (∀ k, k < min a.remaining b.remaining → (anyRun a b k).done = false) ∧
    (1 ≤ a.remaining → 1 ≤ b.remaining → ∀ va vb,
      a.result = Except.ok va → b.result = Except.ok vb →
      (anyRun a b (min a.remaining b.remaining)).completed =
        some (Except.ok
          ((if a.remaining ≤ b.remaining then some va else none),
           (if b.remaining ≤ a.remaining then some vb else none)))) ∧
    (1 ≤ a.remaining → a.remaining ≤ b.remaining → ∀ f, a.result = Except.error f →
      (anyRun a b a.remaining).completed = some (Except.error f) ∧
      (anyRun a b a.remaining).b = b.afterResumes a.remaining) ∧
    (1 ≤ b.remaining → b.remaining < a.remaining → ∀ g, b.result = Except.error g →
      (anyRun a b b.remaining).completed = some (Except.error g) ∧
      (anyRun a b b.remaining).a = a.afterResumes b.remaining) ∧
    (1 ≤ b.remaining → b.remaining = a.remaining → ∀ va g,
      a.result = Except.ok va → b.result = Except.error g →
      (anyRun a b b.remaining).completed = some (Except.error g)) ∧
    (1 ≤ a.remaining → 1 ≤ b.remaining → ∀ j, min a.remaining b.remaining ≤ j →
      anyRun a b j = anyRun a b (min a.remaining b.remaining)) := by
  refine ⟨?_, ?_, ?_, ?_, ?_, ?_, ?_⟩
  · intro h
    have hAB : (a.done || b.done) = true := by
      simp only [MTask.done, Bool.or_eq_true, decide_eq_true_eq]
      omega
    simp only [anyRun, AnyInit, AnyState.resume, AnyState.done, Option.isSome_none,
      Bool.false_eq_true, if_false, if_true, hAB]
  · intro k hlt
    cases k with
    | zero => rfl
    | succ k =>
      rw [anyRun_running a b (k + 1) (by omega) hlt]
      rfl
  · intro ha hb va vb hva hvb
    rw [anyRun_completes a b ha hb]
    have hda : (a.afterResumes (min a.remaining b.remaining)).done =
        decide (a.remaining ≤ b.remaining) := by
      rw [MTask.afterResumes_done]
      by_cases h : a.remaining ≤ b.remaining <;> simp [h]
    have hdb : (b.afterResumes (min a.remaining b.remaining)).done =
        decide (b.remaining ≤ a.remaining) := by
      rw [MTask.afterResumes_done]
      by_cases h : b.remaining ≤ a.remaining <;> simp [h]
    simp only [anyComplete, ConvertOptionalVoidResult, hda, hdb]
    by_cases h1 : a.remaining ≤ b.remaining <;>
      by_cases h2 : b.remaining ≤ a.remaining <;>
        simp [h1, h2, MTask.afterResumes, hva, hvb]
  · intro ha hab f hf
    have hb : 1 ≤ b.remaining := le_trans ha hab
    have hmin : min a.remaining b.remaining = a.remaining := min_eq_left hab
    have h := anyRun_completes a b ha hb
    rw [hmin] at h
    rw [h]
    refine ⟨?_, rfl⟩
    simp [anyComplete, ConvertOptionalVoidResult, MTask.afterResumes, MTask.done, hf]
  · intro hb hba g hg
    have ha : 1 ≤ a.remaining := by omega
    have hmin : min a.remaining b.remaining = b.remaining := min_eq_right (by omega)
    have h := anyRun_completes a b ha hb
    rw [hmin] at h
    rw [h]
    refine ⟨?_, rfl⟩
    have hnda : ¬(a.remaining - b.remaining = 0) := by omega
    simp [anyComplete, ConvertOptionalVoidResult, MTask.afterResumes, MTask.done, hnda, hg]
  · intro hb hba va g hva hg
    have ha : 1 ≤ a.remaining := by omega
    have hmin : min a.remaining b.remaining = b.remaining := min_eq_right (by omega)
    have h := anyRun_completes a b ha hb
    rw [hmin] at h
    rw [h]
    have hda : a.remaining - b.remaining = 0 := by omega
    simp [anyComplete, ConvertOptionalVoidResult, MTask.afterResumes, MTask.done, hda, hva, hg]
  · intro ha hb j hj
    exact anyRun_frozen a b (min a.remaining b.remaining)
      (by rw [anyRun_completes a b ha hb]; rfl) j hj

/-- C6 witness: `Any(A, B)` with A faulting (label 13) on tick 2 and B
needing five ticks: not done at tick 1, the fault propagates at tick 2,
and B is left in its two-resumes state untouched thereafter.
Symmetrically, with B faulting (label 21) on tick 2 while A needs five
ticks, B's fault propagates at tick 2 and A is left untouched; a B fault
also propagates when both finish on the same tick.  Plus the success
shape: A done first on tick 1 gives `(some 10, none)`; entry completion
when B is already done at entry gives `(none, some 20)` with neither
argument resumed. -/
theorem any_first_done_fail_fast_witness :
    (anyRun (⟨2, 0, Except.error 13⟩ : MTask Nat) (⟨5, 0, Except.ok 20⟩ : MTask Nat) 1).done
        = false ∧
    (anyRun (⟨2, 0, Except.error 13⟩ : MTask Nat)
        (⟨5, 0, Except.ok 20⟩ : MTask Nat) 2).completed = some (Except.error 13) ∧
    (anyRun (⟨2, 0, Except.error 13⟩ : MTask Nat) (⟨5, 0, Except.ok 20⟩ : MTask Nat) 2).b
        = ⟨3, 2, Except.ok 20⟩ ∧
    (anyRun (⟨5, 0, Except.ok 10⟩ : MTask Nat)
        (⟨2, 0, Except.error 21⟩ : MTask Nat) 2).completed = some (Except.error 21) ∧
    (anyRun (⟨5, 0, Except.ok 10⟩ : MTask Nat) (⟨2, 0, Except.error 21⟩ : MTask Nat) 2).a
        = ⟨3, 2, Except.ok 10⟩ ∧
    (anyRun (⟨2, 0, Except.ok 10⟩ : MTask Nat)
        (⟨2, 0, Except.error 9⟩ : MTask Nat) 2).completed = some (Except.error 9) ∧
    (anyRun (⟨1, 0, Except.ok 10⟩ : MTask Nat)
        (⟨4, 0, Except.ok 20⟩ : MTask Nat) 1).completed =
      some (Except.ok ((some 10 : Option Nat), (none : Option Nat))) ∧
    anyRun (⟨7, 0, Except.ok 10⟩ : MTask Nat) (⟨0, 0, Except.ok 20⟩ : MTask Nat) 1 =
      ⟨⟨7, 0, Except.ok 10⟩, ⟨0, 0, Except.ok 20⟩, true,
        some (Except.ok ((none : Option Nat), (some 20 : Option Nat)))⟩ := by
  refine ⟨?_, ?_, ?_, ?_, ?_, ?_, ?_, ?_⟩
  · exact (any_first_done_fail_fast Nat Nat ⟨2, 0, Except.error 13⟩ ⟨5, 0, Except.ok 20⟩).2.1
      1 (by decide)
  · exact ((any_first_done_fail_fast Nat Nat ⟨2, 0, Except.error 13⟩
      ⟨5, 0, Except.ok 20⟩).2.2.2.1 (by decide) (by decide) 13 rfl).1
  · exact ((any_first_done_fail_fast Nat Nat ⟨2, 0, Except.error 13⟩
      ⟨5, 0, Except.ok 20⟩).2.2.2.1 (by decide) (by decide) 13 rfl).2
  · exact ((any_first_done_fail_fast Nat Nat ⟨5, 0, Except.ok 10⟩
      ⟨2, 0, Except.error 21⟩).2.2.2.2.1 (by decide) (by decide) 21 rfl).1
  · exact ((any_first_done_fail_fast Nat Nat ⟨5, 0, Except.ok 10⟩
      ⟨2, 0, Except.error 21⟩).2.2.2.2.1 (by decide) (by decide) 21 rfl).2
  · exact (any_first_done_fail_fast Nat Nat ⟨2, 0, Except.ok 10⟩
      ⟨2, 0, Except.error 9⟩).2.2.2.2.2.1 (by decide) rfl 10 9 rfl rfl
  · have h := (any_first_done_fail_fast Nat Nat ⟨1, 0, Except.ok 10⟩
      ⟨4, 0, Except.ok 20⟩).2.2.1 (by decide) (by decide) 10 20 rfl rfl
    simpa using h
  · have h := (any_first_done_fail_fast Nat Nat ⟨7, 0, Except.ok 10⟩
      ⟨0, 0, Except.ok 20⟩).1 (Or.inr rfl)
    rw [h]
    rfl

/-- The dispatch loop's invocation log is the stored map's funcIds in
order — the environment threading (callback effects) cannot change
it. -/
theorem dispatch_log {ε : Type} (l : List (CallerKey × Caller ε)) :
    ∀ (log0 : List Nat) (env0 : ε),
      (l.foldl (fun acc p => (acc.1 ++ [p.2.funcId], p.2.funcEff acc.2)) (log0, env0)).1 =
        log0 ++ l.map fun p => p.2.funcId := by
  induction l with
  | nil => intro log0 env0; simp
  | cons p rest ih =>
    intro log0 env0
    simp only [List.foldl_cons, List.map_cons]
    rw [ih]
    simp

/-- C7: one `call()` first re-evaluates each entry's priority function
and re-keys every entry to its current priority — the refreshed map is a
permutation of the re-keyed entries, arranged ascending — then invokes
all callbacks in ascending (priority, registration id) order, equal
priorities always ordered by smaller id first.  The invocation order is
fully determined by the keys refreshed at cycle entry, so a priority
change made during a cycle (a callback's effect on the environment the
priority functions read) is observed only at the next `call()`, never
mid-cycle. -/
theorem call_order_deterministic (ε : Type) (env : ε) (ex : OrderedExecutor ε)
    (hnodup : (ex.m_callers.map fun p => p.1.id).Nodup) :
    (ex.call env).1 = ((ex.refreshSortingOrder env).m_callers).map (fun p => p.2.funcId) ∧
    ((ex.refreshSortingOrder env).m_callers).Perm
      (ex.m_callers.map fun p => (⟨p.1.id, p.2.sortingOrderFunc env⟩, p.2)) ∧
    List.Sorted callerLE ((ex.refreshSortingOrder env).m_callers) ∧
    ((ex.refreshSortingOrder env).m_callers).Pairwise (fun p q =>
      p.1.sortingOrder < q.1.sortingOrder ∨
        (p.1.sortingOrder = q.1.sortingOrder ∧ p.1.id < q.1.id)) := by
  have hperm : ((ex.refreshSortingOrder env).m_callers).Perm
      (ex.m_callers.map fun p => (⟨p.1.id, p.2.sortingOrderFunc env⟩, p.2)) :=
    List.perm_insertionSort callerLE _
  have hsorted : List.Sorted callerLE ((ex.refreshSortingOrder env).m_callers) :=
    List.sorted_insertionSort callerLE _
  refine ⟨?_, hperm, hsorted, ?_⟩
  · simp only [OrderedExecutor.call]
    rw [dispatch_log]
    simp
  · have h1 : ((ex.m_callers.map fun p =>
        ((⟨p.1.id, p.2.sortingOrderFunc env⟩ : CallerKey), p.2)).map fun p => p.1.id).Nodup := by
      rw [List.map_map]
      exact hnodup
    have h2 : (((ex.refreshSortingOrder env).m_callers).map fun p => p.1.id).Nodup :=
      ((hperm.map fun p => p.1.id).nodup_iff).mpr h1
    have hids : ((ex.refreshSortingOrder env).m_callers).Pairwise
        (fun p q => p.1.id ≠ q.1.id) := List.pairwise_map.mp h2
    refine (List.Pairwise.and hsorted hids).imp ?_
    intro p q hpq
    obtain ⟨hle, hne⟩ := hpq
    unfold callerLE CallerKey.le at hle
    omega

/-- C7 witness: entries with priorities 10, 5, 5 registered in that
order (ids 1, 2, 3): one dispatch cycle invokes them as
(5, id 2), (5, id 3), (10, id 1). -/
theorem call_order_deterministic_witness :
    ((⟨4,
      [(⟨1, 10⟩, ⟨1, fun u => u, fun _ => 10⟩),
       (⟨2, 5⟩, ⟨2, fun u => u, fun _ => 5⟩),
       (⟨3, 5⟩, ⟨3, fun u => u, fun _ => 5⟩)]⟩ : OrderedExecutor Unit).call ()).1 =
      [2, 3, 1] := by
  rw [(call_order_deterministic Unit () ⟨4,
      [(⟨1, 10⟩, ⟨1, fun u => u, fun _ => 10⟩),
       (⟨2, 5⟩, ⟨2, fun u => u, fun _ => 5⟩),
       (⟨3, 5⟩, ⟨3, fun u => u, fun _ => 5⟩)]⟩ (by decide)).1]
  rfl

end CoTaskLib
